import Mathlib

/-!
Shallow embedding of the sudoku solver in `src/solve.py`.

The 9×9 numpy array of cells is modelled as a function `Grid := Nat → Nat → Nat`
(only indices `< 9` are relevant); in-place mutation becomes explicit state passing,
and the recursive `solve` carries an explicit fuel argument whose sufficiency is
proved separately (termination).  `max_solutions` is an `ℕ∞`: the Python call
`solve(g, 'max')` sets it to `np.inf`, modelled by `⊤`.
-/

namespace SudokuSpec

/-- A sudoku grid: cell lookup by (row, column).  Mirrors the 9×9 numpy array. -/
abbrev Grid := Nat → Nat → Nat

/-- `valid_numbers = np.arange(10)` (solve.py line 4). -/
def valid_numbers : List Nat := List.range 10

/-- `list_numbers = valid_numbers[1:]` (line 5): the digits 1..9. -/
def list_numbers : List Nat := valid_numbers.drop 1

/-- `set_numbers = set(list_numbers)` (line 6). -/
def set_numbers : Finset Nat := list_numbers.toFinset

/-- Model of a numpy array of naturals: its shape together with its row-major data. -/
structure NDArray where
  shape : List Nat
  data : List Nat
  size_eq : data.length = shape.prod

/-- `valid_sudoku(sudoku)` (lines 30-50):
`shape = [value for value in sudoku.shape if value != 1]`;
`dim = len(shape) == 2 and shape[0] == shape[1] == 9`;
`num = np.all(np.isin(sudoku, valid_numbers))`; returns `dim and num`. -/
def valid_sudoku (a : NDArray) : Bool :=
  (match a.shape.filter fun v => v != 1 with
    | [s0, s1] => s0 == s1 && s1 == 9
    | _ => false) &&
  (a.data.all fun v => decide (v ∈ valid_numbers))

/-- The 9 values of row `r`, in column order (`for r in sudoku`). -/
def rowList (g : Grid) (r : Nat) : List Nat := (List.range 9).map (g r)

/-- The 9 values of column `c` (`np.transpose(sudoku)` rows). -/
def colList (g : Grid) (c : Nat) : List Nat := (List.range 9).map fun r => g r c

/-- Row-major values of the 3×3 block with top-left corner `(a, b)`,
as produced by `sudoku[a:a+3, b:b+3].flatten()`. -/
def boxList (g : Grid) (a b : Nat) : List Nat :=
  (List.range 9).map fun k => g (a + k / 3) (b + k % 3)

/-- `check_sudoku(sudoku)` (lines 52-80): `all([rows, cols, q1, ..., q9])` where
`rows`/`cols` compare each row/column set and `q1`-`q9` the nine 3×3 block sets
against `set_numbers`. -/
def check_sudoku (g : Grid) : Bool :=
  ((List.range 9).all fun r => decide ((rowList g r).toFinset = set_numbers)) &&
  ((List.range 9).all fun c => decide ((colList g c).toFinset = set_numbers)) &&
  decide ((boxList g 0 0).toFinset = set_numbers) &&
  decide ((boxList g 0 3).toFinset = set_numbers) &&
  decide ((boxList g 0 6).toFinset = set_numbers) &&
  decide ((boxList g 3 0).toFinset = set_numbers) &&
  decide ((boxList g 3 3).toFinset = set_numbers) &&
  decide ((boxList g 3 6).toFinset = set_numbers) &&
  decide ((boxList g 6 0).toFinset = set_numbers) &&
  decide ((boxList g 6 3).toFinset = set_numbers) &&
  decide ((boxList g 6 6).toFinset = set_numbers)

/-- `possible(sudoku, y, x, n)` (lines 150-176), with the three early-return scans:
row `y`, column `x`, then the 3×3 block with corner `(y//3*3, x//3*3)`. -/
def possible (g : Grid) (y x n : Nat) : Bool :=
  if (List.range 9).any fun c => g y c == n then false
  else if (List.range 9).any fun r => g r x == n then false
  else
    let x0 := x / 3 * 3
    let y0 := y / 3 * 3
    if (List.range 9).any fun k => g (y0 + k / 3) (x0 + k % 3) == n then false
    else true

/-- Write digit `n` into cell `(y, x)`: `sudoku[y0, x0] = n`. -/
def setCell (g : Grid) (y x n : Nat) : Grid := fun r c => if r = y ∧ c = x then n else g r c

/-- Number of empty (zero) cells among the 81 cells, in row-major flat indexing. -/
def countZeros (g : Grid) : Nat := (List.range 81).countP fun i => g (i / 9) (i % 9) == 0

/-- First empty cell in row-major order: the first pair `(y0, x0)` produced by
`zip(*np.where(sudoku == 0))` (line 122; the loop returns during its first iteration,
so only this first pair is ever used). -/
def firstZero (g : Grid) : Option (Nat × Nat) :=
  ((List.range 81).find? fun i => g (i / 9) (i % 9) == 0).map fun i => (i / 9, i % 9)

/-- Backtracking undo (lines 126-128): after the recursive call returns, the cell is
reset to `0` exactly when the running count of recorded solutions is still strictly
below `max_solutions` (`if len(_sudoku_solutions) < max_solutions: sudoku[y0,x0] = 0`). -/
def undoStep (y x : Nat) (maxS : ℕ∞) (g : Grid) (sols : List Grid) : Grid :=
  if (sols.length : ℕ∞) < maxS then setCell g y x 0 else g

/-- The inner loop `for n in range(1, 10)` of `solve` (lines 123-128), acting on the
first empty cell `(y, x)`; `f` is the one-level-deeper recursive call of `solve`.
Threads the working grid and the shared solution accumulator; `none` propagates
fuel exhaustion of the deeper call. -/
def solveDigits (f : Grid → ℕ∞ → List Grid → Option (Grid × List Grid)) (y x : Nat)
    (maxS : ℕ∞) : List Nat → Grid → List Grid → Option (Grid × List Grid)
  | [], g, sols => some (g, sols)
  | n :: ns, g, sols =>
    if possible g y x n then
      match f (setCell g y x n) maxS sols with
      | none => none
      | some (g1, sols1) => solveDigits f y x maxS ns (undoStep y x maxS g1 sols1) sols1
    else solveDigits f y x maxS ns g sols

/-- `solve(sudoku, max_solutions, _sudoku_solutions)` (lines 119-135), with explicit
fuel bounding the recursion depth.  If there is no empty cell the loop body never
runs and a copy of the grid is appended (line 134); otherwise the digit loop runs on
the first empty cell and the accumulator is returned (line 129).  The final state of
the in-place-mutated grid is returned alongside the accumulator.  `interactive`
only pretty-prints and pauses, so it is omitted. -/
def solveAux : Nat → Grid → ℕ∞ → List Grid → Option (Grid × List Grid)
  | 0, _, _, _ => none
  | fuel + 1, g, maxS, sols =>
    match firstZero g with
    | none => some (g, sols ++ [g])
    | some (y, x) => solveDigits (solveAux fuel) y x maxS (List.range' 1 9) g sols

/-- Top-level call `solve(sudoku, max_solutions)` (defaults `_sudoku_solutions = []`).
The fuel `countZeros g + 1` is proved sufficient below. -/
def solve (g : Grid) (maxS : ℕ∞) : Option (Grid × List Grid) :=
  solveAux (countZeros g + 1) g maxS []

/-- `np.diag(diag)` for the shuffled digit vector (lines 88-90). -/
def diagGrid (diag : List Nat) : Grid :=
  fun r c => if r < 9 ∧ c < 9 ∧ r = c then diag.getD r 0 else 0

/-- `sudoku.ravel()[idx] = 0` (lines 91-92): clear every cell whose row-major flat
index lies in `idx`. -/
def clearCells (g : Grid) (idx : List Nat) : Grid :=
  fun r c => if r < 9 ∧ c < 9 ∧ (9 * r + c) ∈ idx then 0 else g r c

/-- Number of non-zero cells (clues) of a grid. -/
def nonzeroCount (g : Grid) : Nat := (List.range 81).countP fun i => !(g (i / 9) (i % 9) == 0)

/-- The clue target of each difficulty label (lines 83-86): `easy → 30`,
`medium → 24`, `hard → 17`, anything else is a `ValueError`. -/
def difficultyClues (difficulty : String) : Option Nat :=
  if difficulty == "easy" then some 30
  else if difficulty == "medium" then some 24
  else if difficulty == "hard" then some 17
  else none

/-- `generate_sudoku` (lines 82-95).  The two random draws are passed in explicitly:
`diag` is the shuffled copy of `list_numbers` and `idxChoice k` is the
`np.random.choice(np.arange(9*9), size=k, replace=False)` sample.  Saving to a file
is I/O and omitted.  `solve(np.diag(diag))[0]` indexes the solution list, which in
Python raises `IndexError` on an empty list; that and fuel exhaustion map to
`Except.error`. -/
def generate_sudoku (diag : List Nat) (idxChoice : Nat → List Nat)
    (difficulty : String) : Except String Grid :=
  match difficultyClues difficulty with
  | none => Except.error "difficulty is invalid try easy, medium or hard"
  | some numbersin =>
    match solve (diagGrid diag) 1 with
    | some (_, s :: _) => Except.ok (clearCells s (idxChoice (9 * 9 - numbersin)))
    | _ => Except.error "IndexError"

/-- Well-formedness of a 9×9 grid: every cell value lies in `{0, ..., 9}`. -/
def wellFormed (g : Grid) : Prop := ∀ r c, r < 9 → c < 9 → g r c ≤ 9

/-- Every cell is filled (non-zero). -/
def fullGrid (g : Grid) : Prop := ∀ r c, r < 9 → c < 9 → g r c ≠ 0

/-- `h` agrees with `g` on every non-zero (given) cell of `g`. -/
def extendsTo (g h : Grid) : Prop := ∀ r c, r < 9 → c < 9 → g r c ≠ 0 → h r c = g r c

/-- No digit occurs twice in a row, a column, or a 3×3 block (among non-zero cells). -/
def consistent (g : Grid) : Prop :=
  (∀ r c1 c2, r < 9 → c1 < 9 → c2 < 9 → c1 ≠ c2 → g r c1 ≠ 0 → g r c1 ≠ g r c2) ∧
  (∀ r1 r2 c, r1 < 9 → r2 < 9 → c < 9 → r1 ≠ r2 → g r1 c ≠ 0 → g r1 c ≠ g r2 c) ∧
  (∀ r1 c1 r2 c2, r1 < 9 → c1 < 9 → r2 < 9 → c2 < 9 → r1 / 3 = r2 / 3 → c1 / 3 = c2 / 3 →
    (r1, c1) ≠ (r2, c2) → g r1 c1 ≠ 0 → g r1 c1 ≠ g r2 c2)

/-- `C` is a valid completion of `g`: a solved grid agreeing with all givens of `g`. -/
def Completes (C g : Grid) : Prop := check_sudoku C = true ∧ extendsTo g C

instance decidableWellFormed (g : Grid) : Decidable (wellFormed g) :=
  decidable_of_iff (∀ r, r < 9 → ∀ c, c < 9 → g r c ≤ 9)
    ⟨fun h r c hr hc => h r hr c hc, fun h r hr c hc => h r c hr hc⟩

instance decidableFullGrid (g : Grid) : Decidable (fullGrid g) :=
  decidable_of_iff (∀ r, r < 9 → ∀ c, c < 9 → g r c ≠ 0)
    ⟨fun h r c hr hc => h r hr c hc, fun h r hr c hc => h r c hr hc⟩

instance decidableExtendsTo (g h : Grid) : Decidable (extendsTo g h) :=
  decidable_of_iff (∀ r, r < 9 → ∀ c, c < 9 → g r c ≠ 0 → h r c = g r c)
    ⟨fun hh r c hr hc => hh r hr c hc, fun hh r hr c hc => hh r c hr hc⟩

set_option synthInstance.maxSize 4000 in
instance decidableConsistent (g : Grid) : Decidable (consistent g) :=
  decidable_of_iff
    ((∀ r, r < 9 → ∀ c1, c1 < 9 → ∀ c2, c2 < 9 → c1 ≠ c2 → g r c1 ≠ 0 →
        g r c1 ≠ g r c2) ∧
      (∀ r1, r1 < 9 → ∀ r2, r2 < 9 → ∀ c, c < 9 → r1 ≠ r2 → g r1 c ≠ 0 →
        g r1 c ≠ g r2 c) ∧
      (∀ r1, r1 < 9 → ∀ c1, c1 < 9 → ∀ r2, r2 < 9 → ∀ c2, c2 < 9 →
        r1 / 3 = r2 / 3 → c1 / 3 = c2 / 3 → (r1, c1) ≠ (r2, c2) → g r1 c1 ≠ 0 →
        g r1 c1 ≠ g r2 c2))
    ⟨fun h =>
        ⟨fun r c1 c2 hr h1 h2 => h.1 r hr c1 h1 c2 h2,
          fun r1 r2 c h1 h2 hc => h.2.1 r1 h1 r2 h2 c hc,
          fun r1 c1 r2 c2 h1 h2 h3 h4 => h.2.2 r1 h1 c1 h2 r2 h3 c2 h4⟩,
      fun h =>
        ⟨fun r hr c1 h1 c2 h2 => h.1 r c1 c2 hr h1 h2,
          fun r1 h1 r2 h2 c hc => h.2.1 r1 r2 c h1 h2 hc,
          fun r1 h1 c1 h2 r2 h3 c2 h4 => h.2.2 r1 c1 r2 c2 h1 h2 h3 h4⟩⟩

instance decidableCompletes (C g : Grid) : Decidable (Completes C g) :=
  inferInstanceAs (Decidable (_ ∧ _))

/-! ### Concrete grids used to instantiate the theorems -/

/-- A valid complete sudoku: row `r` is the digit cycle shifted by `3*(r%3) + r/3`. -/
def CW : Grid := fun r c => (3 * (r % 3) + r / 3 + c) % 9 + 1

/-- `CW` with its top-left cell emptied. -/
def gOne : Grid := fun r c => if r = 0 ∧ c = 0 then 0 else CW r c

/-- Every cell holds `5`: full but wildly invalid. -/
def fives : Grid := fun _ _ => 5

/-- `fives` with its top-left cell emptied. -/
def fivesHole : Grid := fun r c => if r = 0 ∧ c = 0 then 0 else 5

/-- A well-formed grid with one empty cell and a built-in conflict: cell `(8,8)`
duplicates the value of `(8,7)`, so no completion exists, yet the search can still
fill `(0,0)` and record the full (invalid) grid as a solution. -/
def gBad : Grid := fun r c =>
  if r = 0 ∧ c = 0 then 0 else if r = 8 ∧ c = 8 then CW 8 7 else CW r c

/-- A complete sudoku whose main diagonal is exactly `1, 2, ..., 9` in order, given
as an explicit table; relabelling its digits produces a completion for any
shuffled diagonal seed. -/
def D0list : List (List Nat) :=
  [[1, 4, 5, 2, 3, 7, 6, 9, 8],
   [6, 2, 7, 1, 8, 9, 3, 4, 5],
   [8, 9, 3, 5, 6, 4, 1, 2, 7],
   [2, 1, 6, 4, 7, 8, 9, 5, 3],
   [3, 7, 4, 9, 5, 1, 8, 6, 2],
   [5, 8, 9, 3, 2, 6, 4, 7, 1],
   [4, 5, 1, 8, 9, 2, 7, 3, 6],
   [9, 6, 2, 7, 1, 3, 5, 8, 4],
   [7, 3, 8, 6, 4, 5, 2, 1, 9]]

/-- `D0list` as a grid. -/
def D0 : Grid := fun r c => (D0list.getD r []).getD c 0

/-- The digit relabelling of `D0` sending digit `v` to `diag[v - 1]`: a complete
grid whose main diagonal is exactly `diag`. -/
def relabel (diag : List Nat) : Grid := fun r c => diag.getD (D0 r c - 1) 0

/-- A consistent, well-formed grid with no completion: row 0 has givens 1..8 with
its last cell empty, but column 8 already contains a 9 at `(1,8)`, so the forced
digit 9 for `(0,8)` cannot be placed by any completion. -/
def gStuck : Grid := fun r c =>
  if r = 0 ∧ c < 8 then c + 1 else if r = 1 ∧ c = 8 then 9 else 0

/-- An ndarray of shape `(9, 9, 1)` filled with zeros. -/
def nd991 : NDArray := ⟨[9, 9, 1], List.replicate 81 0, by decide⟩

/-! ### Invariant shapes threaded through the recursion -/

/-- The conditional frame invariant satisfied by each level of the recursion: on a
`some` result, the solution list only grows, the number of empty cells never grows,
all givens are preserved, and when the final count is still below `max_solutions`
the grid is returned exactly as it was. -/
def SolveFunInv (f : Grid → ℕ∞ → List Grid → Option (Grid × List Grid)) : Prop :=
  ∀ g maxS sols g2 sols2, f g maxS sols = some (g2, sols2) →
    (∃ t, sols2 = sols ++ t) ∧ countZeros g2 ≤ countZeros g ∧ extendsTo g g2 ∧
      ((sols2.length : ℕ∞) < maxS → g2 = g)

/-- On a `some` result from a consistent and well-formed grid, every recorded
solution is either an old one or a full, consistent, well-formed extension of the
input grid; the returned grid stays consistent and well-formed. -/
def SolveFunContent (f : Grid → ℕ∞ → List Grid → Option (Grid × List Grid)) : Prop :=
  ∀ g maxS sols g2 sols2, consistent g → wellFormed g → f g maxS sols = some (g2, sols2) →
    (∀ s ∈ sols2, s ∈ sols ∨
      (fullGrid s ∧ consistent s ∧ wellFormed s ∧ extendsTo g s)) ∧
      consistent g2 ∧ wellFormed g2

/-- On a `some` result from a consistent, well-formed grid with the running count
still below `max_solutions`: the final count never exceeds `max_solutions`, and if it
has reached it, the returned grid is a full, consistent, well-formed grid that is
exactly the last recorded solution (the grid is frozen at the final solution). -/
def SolveFunCount (f : Grid → ℕ∞ → List Grid → Option (Grid × List Grid)) : Prop :=
  ∀ g maxS sols g2 sols2, consistent g → wellFormed g → (sols.length : ℕ∞) < maxS →
    f g maxS sols = some (g2, sols2) →
    (sols2.length : ℕ∞) ≤ maxS ∧
      (¬((sols2.length : ℕ∞) < maxS) →
        fullGrid g2 ∧ consistent g2 ∧ wellFormed g2 ∧ sols2.getLast? = some g2)

/-- On a `some` result, if the input grid admits a valid completion and the running
count is still below `max_solutions`, the search records at least one new solution. -/
def SolveFunEx (f : Grid → ℕ∞ → List Grid → Option (Grid × List Grid)) : Prop :=
  ∀ g maxS sols g2 sols2 C, Completes C g → (sols.length : ℕ∞) < maxS →
    f g maxS sols = some (g2, sols2) → sols.length < sols2.length

/-! ### Basic lemmas about cells, counting and the first empty cell -/

theorem setCell_same (g : Grid) (y x n : Nat) : setCell g y x n y x = n := by
  simp [setCell]

theorem setCell_other (g : Grid) (y x n r c : Nat) (h : ¬(r = y ∧ c = x)) :
    setCell g y x n r c = g r c := by
  simp [setCell, h]

theorem setCell_cancel (g : Grid) (y x n : Nat) (h : g y x = 0) :
    setCell (setCell g y x n) y x 0 = g := by
  funext r c
  by_cases hrc : r = y ∧ c = x
  · obtain ⟨rfl, rfl⟩ := hrc
    simp [setCell, h]
  · simp [setCell, hrc]

theorem flat_div (r c : Nat) (hc : c < 9) : (9 * r + c) / 9 = r := by omega

theorem flat_mod (r c : Nat) (hc : c < 9) : (9 * r + c) % 9 = c := by omega

theorem flat_lt (r c : Nat) (hr : r < 9) (hc : c < 9) : 9 * r + c < 81 := by omega

/-- Generic counting helper: pointwise implication of predicates bounds `countP`. -/
theorem countP_le_of_imp {α : Type} {p q : α → Bool} :
    ∀ l : List α, (∀ a ∈ l, q a = true → p a = true) → l.countP q ≤ l.countP p := by
  intro l
  induction l with
  | nil => intro _; simp
  | cons a l ih =>
    intro h
    rw [List.countP_cons, List.countP_cons]
    have hl := ih fun b hb => h b (List.mem_cons_of_mem a hb)
    by_cases hq : q a = true
    · have hp := h a (List.mem_cons_self a l) hq
      simp [hq, hp]; omega
    · simp only [Bool.not_eq_true] at hq
      simp [hq]; omega

/-- Generic counting helper: a pointwise implication that fails at one member of the
list makes the count strictly smaller. -/
theorem countP_lt_of_imp {α : Type} {p q : α → Bool} :
    ∀ l : List α, (∀ a ∈ l, q a = true → p a = true) →
      ∀ a0 ∈ l, p a0 = true → q a0 = false → l.countP q < l.countP p := by
  intro l
  induction l with
  | nil => intro _ a0 h; simp at h
  | cons a l ih =>
    intro h a0 ha0 hp0 hq0
    rw [List.countP_cons, List.countP_cons]
    have hmono := countP_le_of_imp l fun b hb => h b (List.mem_cons_of_mem a hb)
    rcases List.mem_cons.1 ha0 with rfl | ha0
    · simp [hp0, hq0]; omega
    · have := ih (fun b hb => h b (List.mem_cons_of_mem a hb)) a0 ha0 hp0 hq0
      by_cases hq : q a = true
      · have hp := h a (List.mem_cons_self a l) hq
        simp [hq, hp]; omega
      · simp only [Bool.not_eq_true] at hq
        simp [hq]; omega

theorem countZeros_le (g : Grid) : countZeros g ≤ 81 := by
  have := List.countP_le_length (l := List.range 81)
    (p := fun i => g (i / 9) (i % 9) == 0)
  simpa [countZeros] using this

theorem countZeros_setCell_le (g : Grid) (y x n : Nat) (hn : n ≠ 0) :
    countZeros (setCell g y x n) ≤ countZeros g := by
  apply countP_le_of_imp
  intro i _ hq
  simp only [beq_iff_eq] at hq ⊢
  by_cases hrc : i / 9 = y ∧ i % 9 = x
  · rw [setCell, if_pos hrc] at hq; exact absurd hq hn
  · rwa [setCell_other _ _ _ _ _ _ hrc] at hq

theorem countZeros_setCell_lt (g : Grid) (y x n : Nat) (hy : y < 9) (hx : x < 9)
    (h0 : g y x = 0) (hn : n ≠ 0) : countZeros (setCell g y x n) < countZeros g := by
  apply countP_lt_of_imp
  · intro i _ hq
    simp only [beq_iff_eq] at hq ⊢
    by_cases hrc : i / 9 = y ∧ i % 9 = x
    · rw [setCell, if_pos hrc] at hq; exact absurd hq hn
    · rwa [setCell_other _ _ _ _ _ _ hrc] at hq
  · exact List.mem_range.2 (flat_lt y x hy hx)
  · simp only [beq_iff_eq]
    rw [flat_div y x hx, flat_mod y x hx]; exact h0
  · simp only [beq_eq_false_iff_ne, ne_eq]
    rw [flat_div y x hx, flat_mod y x hx, setCell_same]
    exact hn

theorem countZeros_pos (g : Grid) (y x : Nat) (hy : y < 9) (hx : x < 9)
    (h0 : g y x = 0) : 0 < countZeros g := by
  rw [countZeros, List.countP_pos_iff]
  refine ⟨9 * y + x, List.mem_range.2 (flat_lt y x hy hx), ?_⟩
  simp only [beq_iff_eq]
  rw [flat_div y x hx, flat_mod y x hx]; exact h0

theorem firstZero_eq_none_iff (g : Grid) : firstZero g = none ↔ fullGrid g := by
  rw [firstZero, Option.map_eq_none', List.find?_eq_none]
  constructor
  · intro h r c hr hc
    have := h (9 * r + c) (List.mem_range.2 (flat_lt r c hr hc))
    rw [flat_div r c hc, flat_mod r c hc] at this
    simpa using this
  · intro h i hi
    have hi81 := List.mem_range.1 hi
    have h9 : i / 9 < 9 := by omega
    have h9' : i % 9 < 9 := by omega
    simpa using h (i / 9) (i % 9) h9 h9'

theorem firstZero_eq_some (g : Grid) (y x : Nat) (h : firstZero g = some (y, x)) :
    y < 9 ∧ x < 9 ∧ g y x = 0 := by
  rw [firstZero, Option.map_eq_some'] at h
  obtain ⟨i, hfind, hpair⟩ := h
  have hmem := List.mem_range.1 (List.mem_of_find?_eq_some hfind)
  have hp := List.find?_some hfind
  simp only [beq_iff_eq] at hp
  obtain ⟨rfl, rfl⟩ : i / 9 = y ∧ i % 9 = x := by
    have := congrArg Prod.fst hpair
    have := congrArg Prod.snd hpair
    simp_all
  exact ⟨by omega, by omega, hp⟩

theorem extendsTo_refl (g : Grid) : extendsTo g g := fun _ _ _ _ _ => rfl

theorem extendsTo_trans {g h k : Grid} (h1 : extendsTo g h) (h2 : extendsTo h k) :
    extendsTo g k := by
  intro r c hr hc hne
  have e1 := h1 r c hr hc hne
  have hne2 : h r c ≠ 0 := by rw [e1]; exact hne
  rw [h2 r c hr hc hne2, e1]

theorem extendsTo_setCell {g h : Grid} (y x m : Nat) (h0 : g y x = 0)
    (hext : extendsTo g h) : extendsTo g (setCell h y x m) := by
  intro r c hr hc hne
  by_cases hrc : r = y ∧ c = x
  · obtain ⟨rfl, rfl⟩ := hrc; exact absurd h0 hne
  · rw [setCell_other _ _ _ _ _ _ hrc]; exact hext r c hr hc hne

/-! ### Characterization of the placement predicate `possible` (claim C4) -/

theorem any_range_eq_true {k : Nat} {f : Nat → Nat} {n : Nat} :
    ((List.range k).any fun c => f c == n) = true ↔ ∃ c, c < k ∧ f c = n := by
  simp [List.any_eq_true, List.mem_range]

theorem box_index_iff (g : Grid) (y x n : Nat) :
    (∃ k, k < 9 ∧ g (y / 3 * 3 + k / 3) (x / 3 * 3 + k % 3) = n) ↔
      ∃ i j, i < 3 ∧ j < 3 ∧ g (y / 3 * 3 + i) (x / 3 * 3 + j) = n := by
  constructor
  · rintro ⟨k, hk, hg⟩
    exact ⟨k / 3, k % 3, by omega, by omega, hg⟩
  · rintro ⟨i, j, hi, hj, hg⟩
    refine ⟨3 * i + j, by omega, ?_⟩
    have h1 : (3 * i + j) / 3 = i := by omega
    have h2 : (3 * i + j) % 3 = j := by omega
    rw [h1, h2]; exact hg

/-- Characterization of `possible`: it is `false` exactly when the digit already
occurs in the row, the column, or the containing 3×3 box. -/
theorem possible_eq_false_char (g : Grid) (y x n : Nat) :
    possible g y x n = false ↔
      (∃ c, c < 9 ∧ g y c = n) ∨ (∃ r, r < 9 ∧ g r x = n) ∨
        (∃ i j, i < 3 ∧ j < 3 ∧ g (y / 3 * 3 + i) (x / 3 * 3 + j) = n) := by
  rw [possible]
  by_cases hrow : ((List.range 9).any fun c => g y c == n) = true
  · simp only [hrow, if_true]
    simp only [true_iff]
    exact Or.inl (any_range_eq_true.1 hrow)
  · rw [if_neg (by simp [hrow])]
    by_cases hcol : ((List.range 9).any fun r => g r x == n) = true
    · simp only [hcol, if_true]
      simp only [true_iff]
      exact Or.inr (Or.inl (any_range_eq_true.1 hcol))
    · rw [if_neg (by simp [hcol])]
      by_cases hbox :
          ((List.range 9).any fun k => g (y / 3 * 3 + k / 3) (x / 3 * 3 + k % 3) == n) = true
      · simp only [hbox, if_true]
        simp only [true_iff]
        exact Or.inr (Or.inr ((box_index_iff g y x n).1 (any_range_eq_true.1 hbox)))
      · rw [if_neg (by simp [hbox])]
        simp only [Bool.true_eq_false, false_iff]
        push_neg
        rw [Bool.not_eq_true] at hrow hcol hbox
        refine ⟨?_, ?_, ?_⟩
        · intro c hc
          by_contra hgc
          exact absurd ((@any_range_eq_true 9 (g y) n).2 ⟨c, hc, hgc⟩) (by simp [hrow])
        · intro r hr
          by_contra hgr
          exact absurd ((@any_range_eq_true 9 (fun r => g r x) n).2 ⟨r, hr, hgr⟩)
            (by simp [hcol])
        · intro i j hi hj
          by_contra hgb
          have : ∃ k, k < 9 ∧ g (y / 3 * 3 + k / 3) (x / 3 * 3 + k % 3) = n :=
            (box_index_iff g y x n).2 ⟨i, j, hi, hj, hgb⟩
          exact absurd
            ((@any_range_eq_true 9 (fun k => g (y / 3 * 3 + k / 3) (x / 3 * 3 + k % 3)) n).2
              this)
            (by simp [hbox])

/-- `possible` is `true` exactly when the digit is absent from the row, the column
and the containing box. -/
theorem possible_eq_true_iff (g : Grid) (y x n : Nat) :
    possible g y x n = true ↔
      ¬((∃ c, c < 9 ∧ g y c = n) ∨ (∃ r, r < 9 ∧ g r x = n) ∨
        (∃ i j, i < 3 ∧ j < 3 ∧ g (y / 3 * 3 + i) (x / 3 * 3 + j) = n)) := by
  constructor
  · intro ht hdis
    rw [(possible_eq_false_char g y x n).2 hdis] at ht
    simp at ht
  · intro hn
    cases hb : possible g y x n
    · exact absurd ((possible_eq_false_char g y x n).1 hb) hn
    · rfl

/-- C4: the placement predicate `possible(G, r, c, n)` returns `false` if and only
if `n` already appears somewhere in row `y`, somewhere in column `x`, or somewhere
in the 3×3 box whose origin is `(y/3*3, x/3*3)`; otherwise it returns `true`. -/
theorem possible_eq_false_iff (g : Grid) (y x n : Nat) :
    possible g y x n = false ↔
      (∃ c, c < 9 ∧ g y c = n) ∨ (∃ r, r < 9 ∧ g r x = n) ∨
        (∃ i j, i < 3 ∧ j < 3 ∧ g (y / 3 * 3 + i) (x / 3 * 3 + j) = n) :=
  possible_eq_false_char g y x n

/-! ### The completion check `check_sudoku` (claims C5, C1) -/

theorem mem_set_numbers_iff {v : Nat} : v ∈ set_numbers ↔ 1 ≤ v ∧ v ≤ 9 := by
  rw [set_numbers, show list_numbers = [1, 2, 3, 4, 5, 6, 7, 8, 9] from rfl]
  simp only [List.mem_toFinset, List.mem_cons, List.not_mem_nil, or_false]
  omega

theorem set_numbers_card : set_numbers.card = 9 := by decide

theorem list_numbers_nodup : list_numbers.Nodup := by decide

/-- A list of nine pairwise-distinct digits from 1..9, indexed over `List.range 9`,
has exactly the digit set `{1, ..., 9}`. -/
theorem toFinset_map_range_eq {f : Nat → Nat}
    (hb : ∀ k, k < 9 → 1 ≤ f k ∧ f k ≤ 9)
    (hinj : ∀ k l, k < 9 → l < 9 → f k = f l → k = l) :
    ((List.range 9).map f).toFinset = set_numbers := by
  have hnd : ((List.range 9).map f).Nodup :=
    List.Nodup.map_on
      (fun a ha b hb' hfab =>
        hinj a b (List.mem_range.1 ha) (List.mem_range.1 hb') hfab)
      (List.nodup_range 9)
  apply Finset.eq_of_subset_of_card_le
  · intro v hv
    rw [List.mem_toFinset] at hv
    obtain ⟨k, hk, rfl⟩ := List.mem_map.1 hv
    exact mem_set_numbers_iff.2 (hb k (List.mem_range.1 hk))
  · rw [List.card_toFinset, List.dedup_eq_self.2 hnd, set_numbers_card]
    simp

/-- Conversely, a region whose digit set is exactly `{1, ..., 9}` has all its nine
entries in 1..9 and pairwise distinct. -/
theorem of_toFinset_map_range_eq {f : Nat → Nat}
    (h : ((List.range 9).map f).toFinset = set_numbers) :
    (∀ k, k < 9 → 1 ≤ f k ∧ f k ≤ 9) ∧
      ∀ k l, k < 9 → l < 9 → k ≠ l → f k ≠ f l := by
  have hlen : ((List.range 9).map f).length = 9 := by simp
  have hdedup : ((List.range 9).map f).dedup.length = 9 := by
    rw [← List.card_toFinset, h, set_numbers_card]
  have hnd : ((List.range 9).map f).Nodup := by
    rw [← List.dedup_eq_self]
    exact List.Sublist.eq_of_length (List.dedup_sublist _) (hdedup.trans hlen.symm)
  constructor
  · intro k hk
    apply mem_set_numbers_iff.1
    rw [← h, List.mem_toFinset]
    exact List.mem_map.2 ⟨k, List.mem_range.2 hk, rfl⟩
  · intro k l hk hl hkl hfe
    have hinj := List.nodup_iff_injective_get.1 hnd
    have hk9 : k < ((List.range 9).map f).length := by rw [hlen]; exact hk
    have hl9 : l < ((List.range 9).map f).length := by rw [hlen]; exact hl
    have hgets : ((List.range 9).map f).get ⟨k, hk9⟩ = ((List.range 9).map f).get ⟨l, hl9⟩ := by
      simp only [List.get_eq_getElem, List.getElem_map, List.getElem_range]
      exact hfe
    have := hinj hgets
    exact hkl (by simpa using congrArg Fin.val this)

theorem check_sudoku_eq_true_iff (g : Grid) :
    check_sudoku g = true ↔
      (∀ r, r < 9 → (rowList g r).toFinset = set_numbers) ∧
      (∀ c, c < 9 → (colList g c).toFinset = set_numbers) ∧
      (∀ a, a ∈ ([0, 3, 6] : List Nat) → ∀ b, b ∈ ([0, 3, 6] : List Nat) →
        (boxList g a b).toFinset = set_numbers) := by
  simp only [check_sudoku, Bool.and_eq_true, List.all_eq_true, List.mem_range,
    decide_eq_true_eq]
  constructor
  · rintro ⟨⟨⟨⟨⟨⟨⟨⟨⟨⟨rows, cols⟩, q1⟩, q2⟩, q3⟩, q4⟩, q5⟩, q6⟩, q7⟩, q8⟩, q9⟩
    refine ⟨rows, cols, ?_⟩
    intro a ha b hb
    have ha' : a = 0 ∨ a = 3 ∨ a = 6 := by simpa using ha
    have hb' : b = 0 ∨ b = 3 ∨ b = 6 := by simpa using hb
    rcases ha' with rfl | rfl | rfl <;> rcases hb' with rfl | rfl | rfl
    · exact q1
    · exact q2
    · exact q3
    · exact q4
    · exact q5
    · exact q6
    · exact q7
    · exact q8
    · exact q9
  · rintro ⟨rows, cols, boxes⟩
    refine ⟨⟨⟨⟨⟨⟨⟨⟨⟨⟨rows, cols⟩, ?_⟩, ?_⟩, ?_⟩, ?_⟩, ?_⟩, ?_⟩, ?_⟩, ?_⟩, ?_⟩ <;>
      apply boxes <;> simp

/-- A grid passing `check_sudoku` is well-formed, full, and has no duplicated digit
in any row, column or box. -/
theorem props_of_check {g : Grid} (h : check_sudoku g = true) :
    wellFormed g ∧ fullGrid g ∧ consistent g := by
  obtain ⟨rows, cols, boxes⟩ := (check_sudoku_eq_true_iff g).1 h
  have hrow : ∀ r, r < 9 →
      (∀ k, k < 9 → 1 ≤ g r k ∧ g r k ≤ 9) ∧
        ∀ k l, k < 9 → l < 9 → k ≠ l → g r k ≠ g r l :=
    fun r hr => of_toFinset_map_range_eq (rows r hr)
  have hcol : ∀ c, c < 9 →
      (∀ k, k < 9 → 1 ≤ g k c ∧ g k c ≤ 9) ∧
        ∀ k l, k < 9 → l < 9 → k ≠ l → g k c ≠ g l c :=
    fun c hc => of_toFinset_map_range_eq (cols c hc)
  refine ⟨?_, ?_, ?_, ?_, ?_⟩
  · intro r c hr hc
    exact ((hrow r hr).1 c hc).2
  · intro r c hr hc
    have := ((hrow r hr).1 c hc).1
    omega
  · intro r c1 c2 hr h1 h2 hne _
    exact (hrow r hr).2 c1 c2 h1 h2 hne
  · intro r1 r2 c h1 h2 hc hne _
    exact (hcol c hc).2 r1 r2 h1 h2 hne
  · intro r1 c1 r2 c2 h1 h2 h3 h4 hdr hdc hne _
    have hamem : r1 / 3 * 3 ∈ ([0, 3, 6] : List Nat) := by
      rcases (by omega : r1 / 3 * 3 = 0 ∨ r1 / 3 * 3 = 3 ∨ r1 / 3 * 3 = 6) with h | h | h <;>
        simp [h]
    have hbmem : c1 / 3 * 3 ∈ ([0, 3, 6] : List Nat) := by
      rcases (by omega : c1 / 3 * 3 = 0 ∨ c1 / 3 * 3 = 3 ∨ c1 / 3 * 3 = 6) with h | h | h <;>
        simp [h]
    have hbx := of_toFinset_map_range_eq (boxes (r1 / 3 * 3) hamem (c1 / 3 * 3) hbmem)
    have hne' : r1 ≠ r2 ∨ c1 ≠ c2 := by
      by_contra hcon
      push_neg at hcon
      exact hne (by rw [hcon.1, hcon.2])
    set k1 := 3 * (r1 % 3) + c1 % 3 with hk1def
    set k2 := 3 * (r2 % 3) + c2 % 3 with hk2def
    have e1r : r1 / 3 * 3 + k1 / 3 = r1 := by omega
    have e1c : c1 / 3 * 3 + k1 % 3 = c1 := by omega
    have e2r : r1 / 3 * 3 + k2 / 3 = r2 := by omega
    have e2c : c1 / 3 * 3 + k2 % 3 = c2 := by omega
    have hkne : k1 ≠ k2 := by omega
    have := hbx.2 k1 k2 (by omega) (by omega) hkne
    rw [e1r, e1c, e2r, e2c] at this
    exact this

/-- Conversely, a full, well-formed grid without duplicated digits in any region
passes `check_sudoku`. -/
theorem check_of_props {g : Grid} (hw : wellFormed g) (hf : fullGrid g)
    (hc : consistent g) : check_sudoku g = true := by
  apply (check_sudoku_eq_true_iff g).2
  obtain ⟨hrows, hcols, hboxes⟩ := hc
  refine ⟨?_, ?_, ?_⟩
  · intro r hr
    rw [rowList]
    apply toFinset_map_range_eq
    · intro k hk
      have h1 := hw r k hr hk
      have h2 := hf r k hr hk
      omega
    · intro k l hk hl hfe
      by_contra hkl
      exact hrows r k l hr hk hl hkl (hf r k hr hk) hfe
  · intro c hc'
    rw [colList]
    apply toFinset_map_range_eq
    · intro k hk
      have h1 := hw k c hk hc'
      have h2 := hf k c hk hc'
      omega
    · intro k l hk hl hfe
      by_contra hkl
      exact hcols k l c hk hl hc' hkl (hf k c hk hc') hfe
  · intro a ha b hb
    have ha' : a = 0 ∨ a = 3 ∨ a = 6 := by simpa using ha
    have hb' : b = 0 ∨ b = 3 ∨ b = 6 := by simpa using hb
    have ha6 : a ≤ 6 ∧ a % 3 = 0 := by rcases ha' with rfl | rfl | rfl <;> omega
    have hb6 : b ≤ 6 ∧ b % 3 = 0 := by rcases hb' with rfl | rfl | rfl <;> omega
    rw [boxList]
    apply toFinset_map_range_eq
    · intro k hk
      have hrlt : a + k / 3 < 9 := by omega
      have hclt : b + k % 3 < 9 := by omega
      have h1 := hw (a + k / 3) (b + k % 3) hrlt hclt
      have h2 := hf (a + k / 3) (b + k % 3) hrlt hclt
      omega
    · intro k l hk hl hfe
      by_contra hkl
      have hr1 : a + k / 3 < 9 := by omega
      have hc1 : b + k % 3 < 9 := by omega
      have hr2 : a + l / 3 < 9 := by omega
      have hc2 : b + l % 3 < 9 := by omega
      have hdr : (a + k / 3) / 3 = (a + l / 3) / 3 := by omega
      have hdc : (b + k % 3) / 3 = (b + l % 3) / 3 := by omega
      have hpne : (a + k / 3, b + k % 3) ≠ (a + l / 3, b + l % 3) := by
        intro hpe
        have hfst : a + k / 3 = a + l / 3 := congrArg Prod.fst hpe
        have hsnd : b + k % 3 = b + l % 3 := congrArg Prod.snd hpe
        omega
      exact hboxes (a + k / 3) (b + k % 3) (a + l / 3) (b + l % 3)
        hr1 hc1 hr2 hc2 hdr hdc hpne (hf _ _ hr1 hc1) hfe

/-- Core pigeonhole step for C5: a nine-element region has digit set `{1, ..., 9}`
iff it is a permutation of the digit list 1..9. -/
theorem toFinset_eq_iff_perm {l : List Nat} (hlen : l.length = 9) :
    l.toFinset = set_numbers ↔ l.Perm list_numbers := by
  constructor
  · intro h
    have hdedup : l.dedup.length = 9 := by
      rw [← List.card_toFinset, h, set_numbers_card]
    have hnd : l.Nodup := by
      rw [← List.dedup_eq_self]
      exact List.Sublist.eq_of_length (List.dedup_sublist _) (hdedup.trans hlen.symm)
    exact List.perm_of_nodup_nodup_toFinset_eq hnd list_numbers_nodup h
  · intro h
    exact List.toFinset_eq_of_perm l list_numbers h

/-- C5: the completion check returns `true` on a grid exactly when every row, every
column, and each of the nine non-overlapping 3×3 boxes is a permutation of the nine
digits 1..9 (hence contains no zero and no repeats). -/
theorem check_sudoku_iff_regions_perm (g : Grid) :
    check_sudoku g = true ↔
      (∀ r, r < 9 → (rowList g r).Perm list_numbers) ∧
      (∀ c, c < 9 → (colList g c).Perm list_numbers) ∧
      (∀ a, a ∈ ([0, 3, 6] : List Nat) → ∀ b, b ∈ ([0, 3, 6] : List Nat) →
        (boxList g a b).Perm list_numbers) := by
  rw [check_sudoku_eq_true_iff]
  have hrl : ∀ r, (rowList g r).length = 9 := fun r => by simp [rowList]
  have hcl : ∀ c, (colList g c).length = 9 := fun c => by simp [colList]
  have hbl : ∀ a b, (boxList g a b).length = 9 := fun a b => by simp [boxList]
  constructor
  · rintro ⟨rows, cols, boxes⟩
    exact ⟨fun r hr => (toFinset_eq_iff_perm (hrl r)).1 (rows r hr),
      fun c hc => (toFinset_eq_iff_perm (hcl c)).1 (cols c hc),
      fun a ha b hb => (toFinset_eq_iff_perm (hbl a b)).1 (boxes a ha b hb)⟩
  · rintro ⟨rows, cols, boxes⟩
    exact ⟨fun r hr => (toFinset_eq_iff_perm (hrl r)).2 (rows r hr),
      fun c hc => (toFinset_eq_iff_perm (hcl c)).2 (cols c hc),
      fun a ha b hb => (toFinset_eq_iff_perm (hbl a b)).2 (boxes a ha b hb)⟩

/-! ### Unfolding equations for the solver -/

theorem solveAux_zero (g : Grid) (maxS : ℕ∞) (sols : List Grid) :
    solveAux 0 g maxS sols = none := rfl

theorem solveAux_succ (fuel : Nat) (g : Grid) (maxS : ℕ∞) (sols : List Grid) :
    solveAux (fuel + 1) g maxS sols =
      match firstZero g with
      | none => some (g, sols ++ [g])
      | some (y, x) => solveDigits (solveAux fuel) y x maxS (List.range' 1 9) g sols := rfl

theorem solveAux_succ_none (fuel : Nat) (g : Grid) (maxS : ℕ∞) (sols : List Grid)
    (h : firstZero g = none) : solveAux (fuel + 1) g maxS sols = some (g, sols ++ [g]) := by
  rw [solveAux_succ, h]

theorem solveAux_succ_some (fuel : Nat) (g : Grid) (maxS : ℕ∞) (sols : List Grid)
    (y x : Nat) (h : firstZero g = some (y, x)) :
    solveAux (fuel + 1) g maxS sols =
      solveDigits (solveAux fuel) y x maxS (List.range' 1 9) g sols := by
  rw [solveAux_succ, h]

theorem solveDigits_nil (f : Grid → ℕ∞ → List Grid → Option (Grid × List Grid))
    (y x : Nat) (maxS : ℕ∞) (g : Grid) (sols : List Grid) :
    solveDigits f y x maxS [] g sols = some (g, sols) := rfl

theorem solveDigits_cons (f : Grid → ℕ∞ → List Grid → Option (Grid × List Grid))
    (y x : Nat) (maxS : ℕ∞) (n : Nat) (ns : List Nat) (g : Grid) (sols : List Grid) :
    solveDigits f y x maxS (n :: ns) g sols =
      if possible g y x n then
        match f (setCell g y x n) maxS sols with
        | none => none
        | some (g1, sols1) => solveDigits f y x maxS ns (undoStep y x maxS g1 sols1) sols1
      else solveDigits f y x maxS ns g sols := rfl

theorem solveDigits_cons_pos (f : Grid → ℕ∞ → List Grid → Option (Grid × List Grid))
    (y x : Nat) (maxS : ℕ∞) (n : Nat) (ns : List Nat) (g g1 : Grid)
    (sols sols1 : List Grid) (hp : possible g y x n = true)
    (hfr : f (setCell g y x n) maxS sols = some (g1, sols1)) :
    solveDigits f y x maxS (n :: ns) g sols =
      solveDigits f y x maxS ns (undoStep y x maxS g1 sols1) sols1 := by
  rw [solveDigits_cons, if_pos hp, hfr]

theorem solveDigits_cons_pos_none (f : Grid → ℕ∞ → List Grid → Option (Grid × List Grid))
    (y x : Nat) (maxS : ℕ∞) (n : Nat) (ns : List Nat) (g : Grid) (sols : List Grid)
    (hp : possible g y x n = true) (hfr : f (setCell g y x n) maxS sols = none) :
    solveDigits f y x maxS (n :: ns) g sols = none := by
  rw [solveDigits_cons, if_pos hp, hfr]

theorem solveDigits_cons_neg (f : Grid → ℕ∞ → List Grid → Option (Grid × List Grid))
    (y x : Nat) (maxS : ℕ∞) (n : Nat) (ns : List Nat) (g : Grid) (sols : List Grid)
    (hp : possible g y x n = false) :
    solveDigits f y x maxS (n :: ns) g sols = solveDigits f y x maxS ns g sols := by
  rw [solveDigits_cons, if_neg (by simp [hp])]

/-! ### Structural invariants of the search (frame effects, claims C10, C2, C8) -/

theorem length_le_of_eq_append {α : Type} {sols sols2 : List α}
    (h : ∃ t, sols2 = sols ++ t) : sols.length ≤ sols2.length := by
  obtain ⟨t, rfl⟩ := h
  simp

theorem enat_not_lt_mono {a b : Nat} {m : ℕ∞} (hab : a ≤ b) (h : ¬((a : ℕ∞) < m)) :
    ¬((b : ℕ∞) < m) := fun hb => h (lt_of_le_of_lt (by exact_mod_cast hab) hb)


theorem solveDigits_inv (f : Grid → ℕ∞ → List Grid → Option (Grid × List Grid))
    (hf : SolveFunInv f) (y x : Nat) (hy : y < 9) (hx : x < 9) :
    ∀ ns : List Nat, (∀ n ∈ ns, n ≠ 0) → ∀ g gcur : Grid, ∀ maxS : ℕ∞,
      ∀ solsC : List Grid, ∀ g2 : Grid, ∀ sols2 : List Grid,
      g y x = 0 →
      (gcur = g ∨ (countZeros gcur < countZeros g ∧ extendsTo g gcur ∧
        ¬((solsC.length : ℕ∞) < maxS))) →
      solveDigits f y x maxS ns gcur solsC = some (g2, sols2) →
      (∃ t, sols2 = solsC ++ t) ∧
        (g2 = g ∨ (countZeros g2 < countZeros g ∧ extendsTo g g2 ∧
          ¬((sols2.length : ℕ∞) < maxS))) := by
  intro ns
  induction ns with
  | nil =>
    intro _ g gcur maxS solsC g2 sols2 h0 hstate heq
    rw [solveDigits_nil] at heq
    simp only [Option.some_inj, Prod.mk.injEq] at heq
    obtain ⟨rfl, rfl⟩ := heq
    exact ⟨⟨[], by simp⟩, hstate⟩
  | cons n ns ih =>
    intro hns g gcur maxS solsC g2 sols2 h0 hstate heq
    have hn0 : n ≠ 0 := hns n (List.mem_cons_self n ns)
    have hns' : ∀ m ∈ ns, m ≠ 0 := fun m hm => hns m (List.mem_cons_of_mem n hm)
    by_cases hp : possible gcur y x n = true
    · cases hfr : f (setCell gcur y x n) maxS solsC with
      | none =>
        rw [solveDigits_cons_pos_none f y x maxS n ns gcur solsC hp hfr] at heq
        exact absurd heq (by simp)
      | some p =>
        obtain ⟨g1, sols1⟩ := p
        rw [solveDigits_cons_pos f y x maxS n ns gcur g1 solsC sols1 hp hfr] at heq
        obtain ⟨⟨t1, ht1⟩, hzc1, hext1, hrest1⟩ := hf _ _ _ _ _ hfr
        by_cases hlt : (sols1.length : ℕ∞) < maxS
        · have hg1 : g1 = setCell gcur y x n := hrest1 hlt
          rcases hstate with rfl | ⟨hzc, hext, hnl⟩
          · have hundo : undoStep y x maxS g1 sols1 = gcur := by
              rw [undoStep, if_pos hlt, hg1, setCell_cancel _ _ _ _ h0]
            rw [hundo] at heq
            obtain ⟨⟨t2, ht2⟩, hst2⟩ :=
              ih hns' gcur gcur maxS sols1 g2 sols2 h0 (Or.inl rfl) heq
            exact ⟨⟨t1 ++ t2, by rw [ht2, ht1, List.append_assoc]⟩, hst2⟩
          · exfalso
            apply hnl
            have hle : solsC.length ≤ sols1.length := length_le_of_eq_append ⟨t1, ht1⟩
            exact lt_of_le_of_lt (by exact_mod_cast hle) hlt
        · have hundo : undoStep y x maxS g1 sols1 = g1 := by
            rw [undoStep, if_neg hlt]
          rw [hundo] at heq
          have hph2 : g1 = g ∨ (countZeros g1 < countZeros g ∧ extendsTo g g1 ∧
              ¬((sols1.length : ℕ∞) < maxS)) := by
            right
            refine ⟨?_, ?_, hlt⟩
            · rcases hstate with rfl | ⟨hzc, hext, hnl⟩
              · calc countZeros g1 ≤ countZeros (setCell gcur y x n) := hzc1
                  _ < countZeros gcur := countZeros_setCell_lt gcur y x n hy hx h0 hn0
              · calc countZeros g1 ≤ countZeros (setCell gcur y x n) := hzc1
                  _ ≤ countZeros gcur := countZeros_setCell_le gcur y x n hn0
                  _ < countZeros g := hzc
            · rcases hstate with rfl | ⟨hzc, hext, hnl⟩
              · exact extendsTo_trans (extendsTo_setCell y x n h0 (extendsTo_refl gcur)) hext1
              · exact extendsTo_trans (extendsTo_setCell y x n h0 hext) hext1
          obtain ⟨⟨t2, ht2⟩, hst2⟩ := ih hns' g g1 maxS sols1 g2 sols2 h0 hph2 heq
          exact ⟨⟨t1 ++ t2, by rw [ht2, ht1, List.append_assoc]⟩, hst2⟩
    · rw [solveDigits_cons_neg f y x maxS n ns gcur solsC
        (by simpa using hp)] at heq
      exact ih hns' g gcur maxS solsC g2 sols2 h0 hstate heq

theorem solveAux_inv : ∀ fuel : Nat, SolveFunInv (solveAux fuel) := by
  intro fuel
  induction fuel with
  | zero =>
    intro g maxS sols g2 sols2 heq
    rw [solveAux_zero] at heq
    exact absurd heq (by simp)
  | succ fuel ih =>
    intro g maxS sols g2 sols2 heq
    cases hfz : firstZero g with
    | none =>
      rw [solveAux_succ_none fuel g maxS sols hfz] at heq
      simp only [Option.some_inj, Prod.mk.injEq] at heq
      obtain ⟨rfl, rfl⟩ := heq
      exact ⟨⟨[g], rfl⟩, le_refl _, extendsTo_refl g, fun _ => rfl⟩
    | some yx =>
      obtain ⟨y, x⟩ := yx
      rw [solveAux_succ_some fuel g maxS sols y x hfz] at heq
      obtain ⟨hy, hx, h0⟩ := firstZero_eq_some g y x hfz
      have hns : ∀ n ∈ List.range' 1 9, n ≠ 0 := by decide
      obtain ⟨⟨t, ht⟩, hstate⟩ :=
        solveDigits_inv (solveAux fuel) ih y x hy hx (List.range' 1 9) hns g g maxS
          sols g2 sols2 h0 (Or.inl rfl) heq
      refine ⟨⟨t, ht⟩, ?_, ?_, ?_⟩
      · rcases hstate with rfl | ⟨hzc, _, _⟩
        · exact le_refl _
        · exact le_of_lt hzc
      · rcases hstate with rfl | ⟨_, hext, _⟩
        · exact extendsTo_refl g2
        · exact hext
      · intro hlen
        rcases hstate with rfl | ⟨_, _, hnl⟩
        · rfl
        · exact absurd hlen hnl

/-! ### Fuel sufficiency: the recursion depth is bounded by the number of empty cells -/

theorem solveDigits_some (f : Grid → ℕ∞ → List Grid → Option (Grid × List Grid))
    (hfInv : SolveFunInv f) (fuel : Nat)
    (hfSome : ∀ g maxS sols, countZeros g < fuel → (f g maxS sols).isSome)
    (y x : Nat) (hy : y < 9) (hx : x < 9) :
    ∀ ns : List Nat, (∀ n ∈ ns, n ≠ 0) → ∀ g gcur : Grid, ∀ maxS : ℕ∞,
      ∀ solsC : List Grid,
      g y x = 0 → countZeros g ≤ fuel →
      (gcur = g ∨ (countZeros gcur < countZeros g ∧ extendsTo g gcur ∧
        ¬((solsC.length : ℕ∞) < maxS))) →
      (solveDigits f y x maxS ns gcur solsC).isSome := by
  intro ns
  induction ns with
  | nil =>
    intro _ g gcur maxS solsC h0 hfuel hstate
    rw [solveDigits_nil]
    simp
  | cons n ns ih =>
    intro hns g gcur maxS solsC h0 hfuel hstate
    have hn0 : n ≠ 0 := hns n (List.mem_cons_self n ns)
    have hns' : ∀ m ∈ ns, m ≠ 0 := fun m hm => hns m (List.mem_cons_of_mem n hm)
    by_cases hp : possible gcur y x n = true
    · have hzarg : countZeros (setCell gcur y x n) < fuel := by
        rcases hstate with rfl | ⟨hzc, _, _⟩
        · have := countZeros_setCell_lt gcur y x n hy hx h0 hn0
          omega
        · have := countZeros_setCell_le gcur y x n hn0
          omega
      obtain ⟨p, hfr⟩ := Option.isSome_iff_exists.1 (hfSome (setCell gcur y x n) maxS solsC hzarg)
      obtain ⟨g1, sols1⟩ := p
      rw [solveDigits_cons_pos f y x maxS n ns gcur g1 solsC sols1 hp hfr]
      obtain ⟨⟨t1, ht1⟩, hzc1, hext1, hrest1⟩ := hfInv _ _ _ _ _ hfr
      by_cases hlt : (sols1.length : ℕ∞) < maxS
      · have hg1 : g1 = setCell gcur y x n := hrest1 hlt
        rcases hstate with rfl | ⟨hzc, hext, hnl⟩
        · rw [show undoStep y x maxS g1 sols1 = gcur from by
            rw [undoStep, if_pos hlt, hg1, setCell_cancel _ _ _ _ h0]]
          exact ih hns' gcur gcur maxS sols1 h0 hfuel (Or.inl rfl)
        · exfalso
          apply hnl
          have hle : solsC.length ≤ sols1.length := length_le_of_eq_append ⟨t1, ht1⟩
          exact lt_of_le_of_lt (by exact_mod_cast hle) hlt
      · rw [show undoStep y x maxS g1 sols1 = g1 from by rw [undoStep, if_neg hlt]]
        apply ih hns' g g1 maxS sols1 h0 hfuel
        right
        refine ⟨?_, ?_, hlt⟩
        · rcases hstate with rfl | ⟨hzc, hext, hnl⟩
          · calc countZeros g1 ≤ countZeros (setCell gcur y x n) := hzc1
              _ < countZeros gcur := countZeros_setCell_lt gcur y x n hy hx h0 hn0
          · calc countZeros g1 ≤ countZeros (setCell gcur y x n) := hzc1
              _ ≤ countZeros gcur := countZeros_setCell_le gcur y x n hn0
              _ < countZeros g := hzc
        · rcases hstate with rfl | ⟨hzc, hext, hnl⟩
          · exact extendsTo_trans (extendsTo_setCell y x n h0 (extendsTo_refl gcur)) hext1
          · exact extendsTo_trans (extendsTo_setCell y x n h0 hext) hext1
    · rw [solveDigits_cons_neg f y x maxS n ns gcur solsC (by simpa using hp)]
      exact ih hns' g gcur maxS solsC h0 hfuel hstate

theorem solveAux_some : ∀ fuel : Nat, ∀ g : Grid, ∀ maxS : ℕ∞, ∀ sols : List Grid,
    countZeros g < fuel → (solveAux fuel g maxS sols).isSome := by
  intro fuel
  induction fuel with
  | zero =>
    intro g maxS sols h
    omega
  | succ fuel ih =>
    intro g maxS sols h
    cases hfz : firstZero g with
    | none =>
      rw [solveAux_succ_none fuel g maxS sols hfz]
      simp
    | some yx =>
      obtain ⟨y, x⟩ := yx
      rw [solveAux_succ_some fuel g maxS sols y x hfz]
      obtain ⟨hy, hx, h0⟩ := firstZero_eq_some g y x hfz
      exact solveDigits_some (solveAux fuel) (solveAux_inv fuel) fuel ih y x hy hx
        (List.range' 1 9) (by decide) g g maxS sols h0 (by omega) (Or.inl rfl)

/-! ### Consistency and well-formedness are preserved by the search -/

theorem wellFormed_setCell {g : Grid} (hw : wellFormed g) (y x n : Nat) (hn : n ≤ 9) :
    wellFormed (setCell g y x n) := by
  intro r c hr hc
  by_cases hrc : r = y ∧ c = x
  · rw [setCell, if_pos hrc]; exact hn
  · rw [setCell_other _ _ _ _ _ _ hrc]; exact hw r c hr hc

theorem consistent_setCell_zero {g : Grid} (hc : consistent g) (y x : Nat) :
    consistent (setCell g y x 0) := by
  obtain ⟨hrows, hcols, hboxes⟩ := hc
  refine ⟨?_, ?_, ?_⟩
  · intro r c1 c2 hr h1 h2 hne hnz
    by_cases e1 : r = y ∧ c1 = x
    · rw [setCell, if_pos e1] at hnz; exact absurd rfl hnz
    · rw [setCell_other _ _ _ _ _ _ e1] at hnz ⊢
      by_cases e2 : r = y ∧ c2 = x
      · rw [setCell, if_pos e2]; exact fun h => hnz h
      · rw [setCell_other _ _ _ _ _ _ e2]
        exact hrows r c1 c2 hr h1 h2 hne hnz
  · intro r1 r2 c h1 h2 hcn hne hnz
    by_cases e1 : r1 = y ∧ c = x
    · rw [setCell, if_pos e1] at hnz; exact absurd rfl hnz
    · rw [setCell_other _ _ _ _ _ _ e1] at hnz ⊢
      by_cases e2 : r2 = y ∧ c = x
      · rw [setCell, if_pos e2]; exact fun h => hnz h
      · rw [setCell_other _ _ _ _ _ _ e2]
        exact hcols r1 r2 c h1 h2 hcn hne hnz
  · intro r1 c1 r2 c2 h1 h2 h3 h4 hdr hdc hne hnz
    by_cases e1 : r1 = y ∧ c1 = x
    · rw [setCell, if_pos e1] at hnz; exact absurd rfl hnz
    · rw [setCell_other _ _ _ _ _ _ e1] at hnz ⊢
      by_cases e2 : r2 = y ∧ c2 = x
      · rw [setCell, if_pos e2]; exact fun h => hnz h
      · rw [setCell_other _ _ _ _ _ _ e2]
        exact hboxes r1 c1 r2 c2 h1 h2 h3 h4 hdr hdc hne hnz

theorem consistent_setCell_of_possible {g : Grid} (hc : consistent g) (y x n : Nat)
    (hy : y < 9) (hx : x < 9) (hp : possible g y x n = true) :
    consistent (setCell g y x n) := by
  have hno := (possible_eq_true_iff g y x n).1 hp
  push_neg at hno
  obtain ⟨hrowf, hcolf, hboxf⟩ := hno
  obtain ⟨hrows, hcols, hboxes⟩ := hc
  refine ⟨?_, ?_, ?_⟩
  · intro r c1 c2 hr h1 h2 hne hnz
    by_cases e1 : r = y ∧ c1 = x
    · have hv1 : setCell g y x n r c1 = n := by rw [e1.1, e1.2, setCell_same]
      rw [hv1] at hnz ⊢
      by_cases e2 : r = y ∧ c2 = x
      · exact absurd (e1.2.trans e2.2.symm) hne
      · rw [setCell_other _ _ _ _ _ _ e2]
        intro h
        exact hrowf c2 h2 (by rw [e1.1] at h; exact h.symm)
    · rw [setCell_other _ _ _ _ _ _ e1] at hnz ⊢
      by_cases e2 : r = y ∧ c2 = x
      · have hv2 : setCell g y x n r c2 = n := by rw [e2.1, e2.2, setCell_same]
        rw [hv2]
        intro h
        exact hrowf c1 h1 (by rw [← e2.1]; exact h)
      · rw [setCell_other _ _ _ _ _ _ e2]
        exact hrows r c1 c2 hr h1 h2 hne hnz
  · intro r1 r2 c h1 h2 hcn hne hnz
    by_cases e1 : r1 = y ∧ c = x
    · have hv1 : setCell g y x n r1 c = n := by rw [e1.1, e1.2, setCell_same]
      rw [hv1] at hnz ⊢
      by_cases e2 : r2 = y ∧ c = x
      · exact absurd (e1.1.trans e2.1.symm) hne
      · rw [setCell_other _ _ _ _ _ _ e2]
        intro h
        exact hcolf r2 h2 (by rw [e1.2] at h; exact h.symm)
    · rw [setCell_other _ _ _ _ _ _ e1] at hnz ⊢
      by_cases e2 : r2 = y ∧ c = x
      · have hv2 : setCell g y x n r2 c = n := by rw [e2.1, e2.2, setCell_same]
        rw [hv2]
        intro h
        exact hcolf r1 h1 (by rw [← e2.2]; exact h)
      · rw [setCell_other _ _ _ _ _ _ e2]
        exact hcols r1 r2 c h1 h2 hcn hne hnz
  · intro r1 c1 r2 c2 h1 h2 h3 h4 hdr hdc hne hnz
    by_cases e1 : r1 = y ∧ c1 = x
    · have hv1 : setCell g y x n r1 c1 = n := by rw [e1.1, e1.2, setCell_same]
      rw [hv1] at hnz ⊢
      by_cases e2 : r2 = y ∧ c2 = x
      · exact absurd (by rw [e1.1, e1.2, e2.1, e2.2]) hne
      · rw [setCell_other _ _ _ _ _ _ e2]
        intro h
        apply hboxf (r2 % 3) (c2 % 3) (by omega) (by omega)
        have ey : y / 3 * 3 + r2 % 3 = r2 := by
          have he := e1.1
          omega
        have ec : x / 3 * 3 + c2 % 3 = c2 := by
          have he := e1.2
          omega
        rw [ey, ec]
        exact h.symm
    · rw [setCell_other _ _ _ _ _ _ e1] at hnz ⊢
      by_cases e2 : r2 = y ∧ c2 = x
      · have hv2 : setCell g y x n r2 c2 = n := by rw [e2.1, e2.2, setCell_same]
        rw [hv2]
        intro h
        apply hboxf (r1 % 3) (c1 % 3) (by omega) (by omega)
        have ey : y / 3 * 3 + r1 % 3 = r1 := by
          have he := e2.1
          omega
        have ec : x / 3 * 3 + c1 % 3 = c1 := by
          have he := e2.2
          omega
        rw [ey, ec]
        exact h
      · rw [setCell_other _ _ _ _ _ _ e2]
        exact hboxes r1 c1 r2 c2 h1 h2 h3 h4 hdr hdc hne hnz


theorem solveDigits_content (f : Grid → ℕ∞ → List Grid → Option (Grid × List Grid))
    (hfInv : SolveFunInv f) (hfC : SolveFunContent f) (y x : Nat) (hy : y < 9)
    (hx : x < 9) :
    ∀ ns : List Nat, (∀ n ∈ ns, 1 ≤ n ∧ n ≤ 9) → ∀ g gcur : Grid, ∀ maxS : ℕ∞,
      ∀ solsC : List Grid, ∀ g2 : Grid, ∀ sols2 : List Grid,
      g y x = 0 → consistent gcur → wellFormed gcur → extendsTo g gcur →
      solveDigits f y x maxS ns gcur solsC = some (g2, sols2) →
      (∀ s ∈ sols2, s ∈ solsC ∨
        (fullGrid s ∧ consistent s ∧ wellFormed s ∧ extendsTo g s)) ∧
        consistent g2 ∧ wellFormed g2 := by
  intro ns
  induction ns with
  | nil =>
    intro _ g gcur maxS solsC g2 sols2 h0 hcc hcw hcext heq
    rw [solveDigits_nil] at heq
    simp only [Option.some_inj, Prod.mk.injEq] at heq
    obtain ⟨rfl, rfl⟩ := heq
    exact ⟨fun s hs => Or.inl hs, hcc, hcw⟩
  | cons n ns ih =>
    intro hns g gcur maxS solsC g2 sols2 h0 hcc hcw hcext heq
    have hn9 : 1 ≤ n ∧ n ≤ 9 := hns n (List.mem_cons_self n ns)
    have hns' : ∀ m ∈ ns, 1 ≤ m ∧ m ≤ 9 := fun m hm => hns m (List.mem_cons_of_mem n hm)
    by_cases hp : possible gcur y x n = true
    · cases hfr : f (setCell gcur y x n) maxS solsC with
      | none =>
        rw [solveDigits_cons_pos_none f y x maxS n ns gcur solsC hp hfr] at heq
        exact absurd heq (by simp)
      | some p =>
        obtain ⟨g1, sols1⟩ := p
        rw [solveDigits_cons_pos f y x maxS n ns gcur g1 solsC sols1 hp hfr] at heq
        have hpc : consistent (setCell gcur y x n) :=
          consistent_setCell_of_possible hcc y x n hy hx hp
        have hpw : wellFormed (setCell gcur y x n) :=
          wellFormed_setCell hcw y x n hn9.2
        have hpext : extendsTo g (setCell gcur y x n) :=
          extendsTo_setCell y x n h0 hcext
        obtain ⟨hsols1, hc1, hw1⟩ := hfC _ _ _ _ _ hpc hpw hfr
        obtain ⟨_, _, hext1, _⟩ := hfInv _ _ _ _ _ hfr
        have hext1g : extendsTo g g1 := extendsTo_trans hpext hext1
        have hsols1g : ∀ s ∈ sols1, s ∈ solsC ∨
            (fullGrid s ∧ consistent s ∧ wellFormed s ∧ extendsTo g s) := by
          intro s hs
          rcases hsols1 s hs with hold | ⟨hfull, hcs, hws, hexts⟩
          · exact Or.inl hold
          · exact Or.inr ⟨hfull, hcs, hws, extendsTo_trans hpext hexts⟩
        by_cases hlt : (sols1.length : ℕ∞) < maxS
        · have hundo : undoStep y x maxS g1 sols1 = setCell g1 y x 0 := by
            rw [undoStep, if_pos hlt]
          rw [hundo] at heq
          obtain ⟨hsols2, hc2, hw2⟩ :=
            ih hns' g (setCell g1 y x 0) maxS sols1 g2 sols2 h0
              (consistent_setCell_zero hc1 y x)
              (wellFormed_setCell hw1 y x 0 (by omega))
              (extendsTo_setCell y x 0 h0 hext1g) heq
          refine ⟨?_, hc2, hw2⟩
          intro s hs
          rcases hsols2 s hs with hmem | hgood
          · exact hsols1g s hmem
          · exact Or.inr hgood
        · have hundo : undoStep y x maxS g1 sols1 = g1 := by
            rw [undoStep, if_neg hlt]
          rw [hundo] at heq
          obtain ⟨hsols2, hc2, hw2⟩ :=
            ih hns' g g1 maxS sols1 g2 sols2 h0 hc1 hw1 hext1g heq
          refine ⟨?_, hc2, hw2⟩
          intro s hs
          rcases hsols2 s hs with hmem | hgood
          · exact hsols1g s hmem
          · exact Or.inr hgood
    · rw [solveDigits_cons_neg f y x maxS n ns gcur solsC (by simpa using hp)] at heq
      exact ih hns' g gcur maxS solsC g2 sols2 h0 hcc hcw hcext heq

theorem solveAux_content : ∀ fuel : Nat, SolveFunContent (solveAux fuel) := by
  intro fuel
  induction fuel with
  | zero =>
    intro g maxS sols g2 sols2 _ _ heq
    rw [solveAux_zero] at heq
    exact absurd heq (by simp)
  | succ fuel ih =>
    intro g maxS sols g2 sols2 hcg hwg heq
    cases hfz : firstZero g with
    | none =>
      rw [solveAux_succ_none fuel g maxS sols hfz] at heq
      simp only [Option.some_inj, Prod.mk.injEq] at heq
      obtain ⟨rfl, rfl⟩ := heq
      have hfull : fullGrid g := (firstZero_eq_none_iff g).1 hfz
      refine ⟨?_, hcg, hwg⟩
      intro s hs
      rcases List.mem_append.1 hs with hold | hnew
      · exact Or.inl hold
      · have hsg : s = g := by simpa using hnew
        subst hsg
        exact Or.inr ⟨hfull, hcg, hwg, extendsTo_refl s⟩
    | some yx =>
      obtain ⟨y, x⟩ := yx
      rw [solveAux_succ_some fuel g maxS sols y x hfz] at heq
      obtain ⟨hy, hx, h0⟩ := firstZero_eq_some g y x hfz
      have hns : ∀ n ∈ List.range' 1 9, 1 ≤ n ∧ n ≤ 9 := by decide
      exact solveDigits_content (solveAux fuel) (solveAux_inv fuel) ih y x hy hx
        (List.range' 1 9) hns g g maxS sols g2 sols2 h0 hcg hwg (extendsTo_refl g) heq

/-! ### Bounding the number of recorded solutions (claims C1, C2) -/

/-- On a full, consistent, well-formed grid, no digit 1..9 can be placed anywhere:
each row already contains every digit. -/
theorem possible_eq_false_of_full {g : Grid} (hw : wellFormed g) (hf : fullGrid g)
    (hc : consistent g) (y x n : Nat) (hy : y < 9) (hn1 : 1 ≤ n) (hn9 : n ≤ 9) :
    possible g y x n = false := by
  have hck := check_of_props hw hf hc
  obtain ⟨rows, _, _⟩ := (check_sudoku_eq_true_iff g).1 hck
  have hnmem : n ∈ (rowList g y).toFinset := by
    rw [rows y hy]
    exact mem_set_numbers_iff.2 ⟨hn1, hn9⟩
  rw [List.mem_toFinset, rowList] at hnmem
  obtain ⟨c, hcmem, hgc⟩ := List.mem_map.1 hnmem
  exact (possible_eq_false_char g y x n).2 (Or.inl ⟨c, List.mem_range.1 hcmem, hgc⟩)

theorem solveDigits_no_possible (f : Grid → ℕ∞ → List Grid → Option (Grid × List Grid))
    (y x : Nat) (maxS : ℕ∞) :
    ∀ ns : List Nat, ∀ g : Grid, ∀ sols : List Grid,
      (∀ n ∈ ns, possible g y x n = false) →
      solveDigits f y x maxS ns g sols = some (g, sols) := by
  intro ns
  induction ns with
  | nil => intro g sols _; rw [solveDigits_nil]
  | cons n ns ih =>
    intro g sols h
    rw [solveDigits_cons_neg f y x maxS n ns g sols (h n (List.mem_cons_self n ns))]
    exact ih g sols fun m hm => h m (List.mem_cons_of_mem n hm)

theorem enat_succ_le_of_lt {a : Nat} {m : ℕ∞} (h : (a : ℕ∞) < m) :
    ((a + 1 : ℕ) : ℕ∞) ≤ m := by
  push_cast
  exact (ENat.add_one_le_iff WithTop.coe_ne_top).2 h


theorem solveDigits_count (f : Grid → ℕ∞ → List Grid → Option (Grid × List Grid))
    (hfInv : SolveFunInv f) (hfCnt : SolveFunCount f) (y x : Nat) (hy : y < 9)
    (hx : x < 9) :
    ∀ ns : List Nat, (∀ n ∈ ns, 1 ≤ n ∧ n ≤ 9) → ∀ g gcur : Grid, ∀ maxS : ℕ∞,
      ∀ solsC : List Grid, ∀ g2 : Grid, ∀ sols2 : List Grid,
      g y x = 0 →
      ((gcur = g ∧ consistent gcur ∧ wellFormed gcur ∧ (solsC.length : ℕ∞) < maxS) ∨
        (fullGrid gcur ∧ consistent gcur ∧ wellFormed gcur ∧
          ¬((solsC.length : ℕ∞) < maxS) ∧ solsC.getLast? = some gcur)) →
      solveDigits f y x maxS ns gcur solsC = some (g2, sols2) →
      ((solsC.length : ℕ∞) ≤ maxS → (sols2.length : ℕ∞) ≤ maxS) ∧
        (¬((sols2.length : ℕ∞) < maxS) →
          fullGrid g2 ∧ consistent g2 ∧ wellFormed g2 ∧ sols2.getLast? = some g2) := by
  intro ns
  induction ns with
  | nil =>
    intro _ g gcur maxS solsC g2 sols2 h0 hstate heq
    rw [solveDigits_nil] at heq
    simp only [Option.some_inj, Prod.mk.injEq] at heq
    obtain ⟨rfl, rfl⟩ := heq
    refine ⟨fun h => h, fun hnl => ?_⟩
    rcases hstate with ⟨rfl, _, _, hlt⟩ | ⟨hfull, hcs, hws, _, hlast⟩
    · exact absurd hlt hnl
    · exact ⟨hfull, hcs, hws, hlast⟩
  | cons n ns ih =>
    intro hns g gcur maxS solsC g2 sols2 h0 hstate heq
    have hn9 : 1 ≤ n ∧ n ≤ 9 := hns n (List.mem_cons_self n ns)
    have hns' : ∀ m ∈ ns, 1 ≤ m ∧ m ≤ 9 := fun m hm => hns m (List.mem_cons_of_mem n hm)
    by_cases hp : possible gcur y x n = true
    · rcases hstate with ⟨hgg, hcs, hws, hlt0⟩ | ⟨hfull, hcs, hws, hnl0, hlast⟩
      · -- phase 1: place and recurse
        cases hfr : f (setCell gcur y x n) maxS solsC with
        | none =>
          rw [solveDigits_cons_pos_none f y x maxS n ns gcur solsC hp hfr] at heq
          exact absurd heq (by simp)
        | some p =>
          obtain ⟨g1, sols1⟩ := p
          rw [solveDigits_cons_pos f y x maxS n ns gcur g1 solsC sols1 hp hfr] at heq
          have h0c : gcur y x = 0 := by rw [hgg]; exact h0
          have hpc : consistent (setCell gcur y x n) :=
            consistent_setCell_of_possible hcs y x n hy hx hp
          have hpw : wellFormed (setCell gcur y x n) :=
            wellFormed_setCell hws y x n hn9.2
          obtain ⟨hle1, hcross⟩ := hfCnt _ _ _ _ _ hpc hpw hlt0 hfr
          by_cases hlt : (sols1.length : ℕ∞) < maxS
          · have hg1 : g1 = setCell gcur y x n := (hfInv _ _ _ _ _ hfr).2.2.2 hlt
            have hundo : undoStep y x maxS g1 sols1 = gcur := by
              rw [undoStep, if_pos hlt, hg1, setCell_cancel _ _ _ _ h0c]
            rw [hundo] at heq
            obtain ⟨hfin1, hfin2⟩ :=
              ih hns' g gcur maxS sols1 g2 sols2 h0
                (Or.inl ⟨hgg, hcs, hws, hlt⟩) heq
            exact ⟨fun _ => hfin1 (le_of_lt hlt), hfin2⟩
          · obtain ⟨hfull1, hc1, hw1, hlast1⟩ := hcross hlt
            have hundo : undoStep y x maxS g1 sols1 = g1 := by
              rw [undoStep, if_neg hlt]
            rw [hundo] at heq
            obtain ⟨hfin1, hfin2⟩ :=
              ih hns' g g1 maxS sols1 g2 sols2 h0
                (Or.inr ⟨hfull1, hc1, hw1, hlt, hlast1⟩) heq
            exact ⟨fun _ => hfin1 hle1, hfin2⟩
      · -- phase 2: the grid is full, so `possible` cannot hold
        exact absurd hp (by
          rw [possible_eq_false_of_full hws hfull hcs y x n hy hn9.1 hn9.2]
          simp)
    · rw [solveDigits_cons_neg f y x maxS n ns gcur solsC (by simpa using hp)] at heq
      exact ih hns' g gcur maxS solsC g2 sols2 h0 hstate heq

theorem solveAux_count : ∀ fuel : Nat, SolveFunCount (solveAux fuel) := by
  intro fuel
  induction fuel with
  | zero =>
    intro g maxS sols g2 sols2 _ _ _ heq
    rw [solveAux_zero] at heq
    exact absurd heq (by simp)
  | succ fuel ih =>
    intro g maxS sols g2 sols2 hcg hwg hlen heq
    cases hfz : firstZero g with
    | none =>
      rw [solveAux_succ_none fuel g maxS sols hfz] at heq
      simp only [Option.some_inj, Prod.mk.injEq] at heq
      obtain ⟨rfl, rfl⟩ := heq
      constructor
      · rw [show (sols ++ [g]).length = sols.length + 1 by simp]
        exact enat_succ_le_of_lt hlen
      · intro _
        exact ⟨(firstZero_eq_none_iff g).1 hfz, hcg, hwg, List.getLast?_concat sols⟩
    | some yx =>
      obtain ⟨y, x⟩ := yx
      rw [solveAux_succ_some fuel g maxS sols y x hfz] at heq
      obtain ⟨hy, hx, h0⟩ := firstZero_eq_some g y x hfz
      have hns : ∀ n ∈ List.range' 1 9, 1 ≤ n ∧ n ≤ 9 := by decide
      obtain ⟨hfin1, hfin2⟩ :=
        solveDigits_count (solveAux fuel) (solveAux_inv fuel) ih y x hy hx
          (List.range' 1 9) hns g g maxS sols g2 sols2 h0
          (Or.inl ⟨rfl, hcg, hwg, hlen⟩) heq
      exact ⟨hfin1 (le_of_lt hlen), hfin2⟩

/-! ### Completeness of the search: a solvable grid always yields a solution -/

theorem completes_cell_bounds {C g : Grid} (h : Completes C g) :
    ∀ r c, r < 9 → c < 9 → 1 ≤ C r c ∧ C r c ≤ 9 := by
  obtain ⟨hwC, hfC, _⟩ := props_of_check h.1
  intro r c hr hc
  have h1 := hwC r c hr hc
  have h2 := hfC r c hr hc
  omega

theorem consistent_of_completes {C g : Grid} (h : Completes C g) : consistent g := by
  obtain ⟨hchk, hext⟩ := h
  obtain ⟨hwC, hfC, hcC⟩ := props_of_check hchk
  refine ⟨?_, ?_, ?_⟩
  · intro r c1 c2 hr h1 h2 hne hnz heqv
    by_cases hz2 : g r c2 = 0
    · rw [heqv] at hnz; exact hnz hz2
    · have e1 := hext r c1 hr h1 hnz
      have e2 := hext r c2 hr h2 hz2
      exact hcC.1 r c1 c2 hr h1 h2 hne (by rw [e1]; exact fun hc0 => hnz (heqv ▸ hc0) )
        (by rw [e1, e2, heqv])
  · intro r1 r2 c h1 h2 hc hne hnz heqv
    by_cases hz2 : g r2 c = 0
    · rw [heqv] at hnz; exact hnz hz2
    · have e1 := hext r1 c h1 hc hnz
      have e2 := hext r2 c h2 hc hz2
      exact hcC.2.1 r1 r2 c h1 h2 hc hne (by rw [e1]; exact fun hc0 => hnz (heqv ▸ hc0))
        (by rw [e1, e2, heqv])
  · intro r1 c1 r2 c2 h1 h2 h3 h4 hdr hdc hne hnz heqv
    by_cases hz2 : g r2 c2 = 0
    · rw [heqv] at hnz; exact hnz hz2
    · have e1 := hext r1 c1 h1 h2 hnz
      have e2 := hext r2 c2 h3 h4 hz2
      exact hcC.2.2 r1 c1 r2 c2 h1 h2 h3 h4 hdr hdc hne
        (by rw [e1]; exact fun hc0 => hnz (heqv ▸ hc0)) (by rw [e1, e2, heqv])

theorem possible_of_completes {C g : Grid} (h : Completes C g) (y x : Nat)
    (hy : y < 9) (hx : x < 9) (h0 : g y x = 0) : possible g y x (C y x) = true := by
  obtain ⟨hchk, hext⟩ := h
  obtain ⟨hwC, hfC, hcC⟩ := props_of_check hchk
  have hd1 : 1 ≤ C y x := by
    have h1 := hfC y x hy hx
    omega
  apply (possible_eq_true_iff g y x (C y x)).2
  rintro (⟨c, hc, hgc⟩ | ⟨r, hr, hgr⟩ | ⟨i, j, hi, hj, hgb⟩)
  · have hnz : g y c ≠ 0 := by rw [hgc]; omega
    by_cases hcx : c = x
    · rw [hcx] at hgc; rw [hgc] at h0; omega
    · have e1 := hext y c hy hc hnz
      exact hcC.1 y c x hy hc hx hcx (by rw [e1, hgc]; omega) (by rw [e1, hgc])
  · have hnz : g r x ≠ 0 := by rw [hgr]; omega
    by_cases hry : r = y
    · rw [hry] at hgr; rw [hgr] at h0; omega
    · have e1 := hext r x hr hx hnz
      exact hcC.2.1 r y x hr hy hx hry (by rw [e1, hgr]; omega) (by rw [e1, hgr])
  · have hr9 : y / 3 * 3 + i < 9 := by omega
    have hc9 : x / 3 * 3 + j < 9 := by omega
    have hnz : g (y / 3 * 3 + i) (x / 3 * 3 + j) ≠ 0 := by rw [hgb]; omega
    by_cases hsame : y / 3 * 3 + i = y ∧ x / 3 * 3 + j = x
    · rw [hsame.1, hsame.2] at hgb
      rw [hgb] at h0; omega
    · have hpne : (y / 3 * 3 + i, x / 3 * 3 + j) ≠ (y, x) := by
        intro hpe
        exact hsame ⟨congrArg Prod.fst hpe, congrArg Prod.snd hpe⟩
      have e1 := hext (y / 3 * 3 + i) (x / 3 * 3 + j) hr9 hc9 hnz
      exact hcC.2.2 (y / 3 * 3 + i) (x / 3 * 3 + j) y x hr9 hc9 hy hx
        (by omega) (by omega) hpne (by rw [e1, hgb]; omega) (by rw [e1, hgb])

theorem completes_setCell {C g : Grid} (h : Completes C g) (y x : Nat)
    (h0 : g y x = 0) : Completes C (setCell g y x (C y x)) := by
  refine ⟨h.1, ?_⟩
  intro r c hr hc hnz
  by_cases hrc : r = y ∧ c = x
  · rw [setCell, if_pos hrc, hrc.1, hrc.2]
  · rw [setCell_other _ _ _ _ _ _ hrc] at hnz ⊢
    exact h.2 r c hr hc hnz


theorem solveDigits_ex (f : Grid → ℕ∞ → List Grid → Option (Grid × List Grid))
    (hfInv : SolveFunInv f) (hfEx : SolveFunEx f) (y x : Nat) (hy : y < 9)
    (hx : x < 9) :
    ∀ ns : List Nat, (∀ n ∈ ns, n ≠ 0) → ∀ g : Grid, ∀ maxS : ℕ∞,
      ∀ solsC : List Grid, ∀ g2 : Grid, ∀ sols2 : List Grid, ∀ C : Grid,
      g y x = 0 → Completes C g → (solsC.length : ℕ∞) < maxS →
      (∃ m ∈ ns, possible g y x m = true ∧ Completes C (setCell g y x m)) →
      solveDigits f y x maxS ns g solsC = some (g2, sols2) →
      solsC.length < sols2.length := by
  intro ns
  induction ns with
  | nil =>
    intro _ g maxS solsC g2 sols2 C h0 hC hltC hwit heq
    obtain ⟨m, hmmem, _⟩ := hwit
    exact absurd hmmem (List.not_mem_nil m)
  | cons n ns ih =>
    intro hns g maxS solsC g2 sols2 C h0 hC hltC hwit heq
    have hn0 : n ≠ 0 := hns n (List.mem_cons_self n ns)
    have hns' : ∀ m ∈ ns, m ≠ 0 := fun m hm => hns m (List.mem_cons_of_mem n hm)
    obtain ⟨m, hmmem, hmp, hmC⟩ := hwit
    by_cases hp : possible g y x n = true
    · cases hfr : f (setCell g y x n) maxS solsC with
      | none =>
        rw [solveDigits_cons_pos_none f y x maxS n ns g solsC hp hfr] at heq
        exact absurd heq (by simp)
      | some p =>
        obtain ⟨g1, sols1⟩ := p
        rw [solveDigits_cons_pos f y x maxS n ns g g1 solsC sols1 hp hfr] at heq
        obtain ⟨⟨t1, ht1⟩, hzc1, hext1, hrest1⟩ := hfInv _ _ _ _ _ hfr
        have hlenge : solsC.length ≤ sols1.length := length_le_of_eq_append ⟨t1, ht1⟩
        by_cases hgrow : solsC.length < sols1.length
        · -- a solution was already found in this branch; the rest only adds more
          by_cases hlt : (sols1.length : ℕ∞) < maxS
          · have hg1 : g1 = setCell g y x n := hrest1 hlt
            have hundo : undoStep y x maxS g1 sols1 = g := by
              rw [undoStep, if_pos hlt, hg1, setCell_cancel _ _ _ _ h0]
            rw [hundo] at heq
            obtain ⟨⟨t2, ht2⟩, _⟩ :=
              solveDigits_inv f hfInv y x hy hx ns hns' g g maxS sols1 g2 sols2 h0
                (Or.inl rfl) heq
            have := length_le_of_eq_append ⟨t2, ht2⟩
            omega
          · have hundo : undoStep y x maxS g1 sols1 = g1 := by
              rw [undoStep, if_neg hlt]
            rw [hundo] at heq
            have hstate : g1 = g ∨ (countZeros g1 < countZeros g ∧ extendsTo g g1 ∧
                ¬((sols1.length : ℕ∞) < maxS)) := by
              right
              refine ⟨?_, extendsTo_trans (extendsTo_setCell y x n h0 (extendsTo_refl g))
                hext1, hlt⟩
              calc countZeros g1 ≤ countZeros (setCell g y x n) := hzc1
                _ < countZeros g := countZeros_setCell_lt g y x n hy hx h0 hn0
            obtain ⟨⟨t2, ht2⟩, _⟩ :=
              solveDigits_inv f hfInv y x hy hx ns hns' g g1 maxS sols1 g2 sols2 h0
                hstate heq
            have := length_le_of_eq_append ⟨t2, ht2⟩
            omega
        · -- nothing new was found by digit `n`
          have hleneq : sols1.length = solsC.length := by omega
          have hlt1 : (sols1.length : ℕ∞) < maxS := by
            rw [show ((sols1.length : Nat) : ℕ∞) = ((solsC.length : Nat) : ℕ∞) from by
              rw [hleneq]]
            exact hltC
          have hg1 : g1 = setCell g y x n := hrest1 hlt1
          have hundo : undoStep y x maxS g1 sols1 = g := by
            rw [undoStep, if_pos hlt1, hg1, setCell_cancel _ _ _ _ h0]
          rw [hundo] at heq
          rcases List.mem_cons.1 hmmem with rfl | hmns
          · -- the completion digit is `n`: the recursive call must have found one
            exfalso
            have := hfEx (setCell g y x m) maxS solsC g1 sols1 C hmC hltC hfr
            omega
          · have := ih hns' g maxS sols1 g2 sols2 C h0 hC hlt1 ⟨m, hmns, hmp, hmC⟩ heq
            omega
    · have hmn : m ∈ ns := by
        rcases List.mem_cons.1 hmmem with rfl | hmns
        · exact absurd hmp hp
        · exact hmns
      rw [solveDigits_cons_neg f y x maxS n ns g solsC (by simpa using hp)] at heq
      exact ih hns' g maxS solsC g2 sols2 C h0 hC hltC ⟨m, hmn, hmp, hmC⟩ heq

theorem solveAux_ex : ∀ fuel : Nat, SolveFunEx (solveAux fuel) := by
  intro fuel
  induction fuel with
  | zero =>
    intro g maxS sols g2 sols2 C _ _ heq
    rw [solveAux_zero] at heq
    exact absurd heq (by simp)
  | succ fuel ih =>
    intro g maxS sols g2 sols2 C hC hlen heq
    cases hfz : firstZero g with
    | none =>
      rw [solveAux_succ_none fuel g maxS sols hfz] at heq
      simp only [Option.some_inj, Prod.mk.injEq] at heq
      obtain ⟨rfl, rfl⟩ := heq
      simp
    | some yx =>
      obtain ⟨y, x⟩ := yx
      rw [solveAux_succ_some fuel g maxS sols y x hfz] at heq
      obtain ⟨hy, hx, h0⟩ := firstZero_eq_some g y x hfz
      have hns : ∀ n ∈ List.range' 1 9, n ≠ 0 := by decide
      have hd := completes_cell_bounds hC y x hy hx
      have hdmem : C y x ∈ List.range' 1 9 := List.mem_range'_1.2 ⟨hd.1, by omega⟩
      exact solveDigits_ex (solveAux fuel) (solveAux_inv fuel) ih y x hy hx
        (List.range' 1 9) hns g maxS sols g2 sols2 C h0 hC hlen
        ⟨C y x, hdmem, possible_of_completes hC y x hy hx h0,
          completes_setCell hC y x h0⟩ heq


theorem countZeros_eq_zero_of_full {g : Grid} (h : fullGrid g) : countZeros g = 0 := by
  rw [countZeros, List.countP_eq_zero]
  intro i hi
  have hi81 := List.mem_range.1 hi
  simp only [beq_iff_eq]
  exact h (i / 9) (i % 9) (by omega) (by omega)

/-!
### C8: termination of the search
-/

/-- C8: for every grid and every `max_solutions` value, the backtracking search
terminates: fuel equal to the number of empty cells plus one (hence depth at most
82, since a grid has at most 81 empty cells) never exhausts, and the branching
factor is the 9 digits tried at each cell. -/
theorem solve_terminates (g : Grid) (maxS : ℕ∞) (sols : List Grid) :
    (solveAux (countZeros g + 1) g maxS sols).isSome ∧ (solve g maxS).isSome ∧
      countZeros g ≤ 81 ∧ (List.range' 1 9).length = 9 :=
  ⟨solveAux_some (countZeros g + 1) g maxS sols (Nat.lt_succ_self _),
    solveAux_some (countZeros g + 1) g maxS [] (Nat.lt_succ_self _),
    countZeros_le g, rfl⟩

/-!
### C9: a grid with no empty cell is returned as-is, without the completion check
-/

/-- C9: on any grid with no zero cell, `solve` appends (a copy of) the grid itself
to the solution list and returns it, without consulting `check_sudoku` — so a full
but invalid grid is still reported as a "solution". -/
theorem solve_full_grid (g : Grid) (maxS : ℕ∞) (hfull : fullGrid g) :
    solve g maxS = some (g, [g]) := by
  have hz : countZeros g = 0 := countZeros_eq_zero_of_full hfull
  have hfz : firstZero g = none := (firstZero_eq_none_iff g).2 hfull
  show solveAux (countZeros g + 1) g maxS [] = some (g, [g])
  rw [hz]
  rw [solveAux_succ_none 0 g maxS [] hfz]
  simp

/-- Witness for C9 at the all-fives grid, which indeed fails the completion check
but is still returned as the unique "solution". -/
theorem solve_full_grid_witness :
    solve fives 1 = some (fives, [fives]) ∧ check_sudoku fives = false :=
  ⟨solve_full_grid fives 1 (by decide), by decide⟩

/-!
### C10: when fewer than `max_solutions` were recorded, the grid is fully restored
-/

/-- C10: whenever a top-level `solve` call returns with strictly fewer recorded
solutions than `max_solutions`, the working grid is returned exactly as it was
passed in — every placement made during the search was undone. -/
theorem solve_restores_grid_below_max (g : Grid) (maxS : ℕ∞) (g2 : Grid)
    (sols2 : List Grid) (heq : solve g maxS = some (g2, sols2))
    (hlt : (sols2.length : ℕ∞) < maxS) : g2 = g :=
  (solveAux_inv (countZeros g + 1) g maxS [] g2 sols2 heq).2.2.2 hlt

/-- Witness for C10: searching the one-hole all-fives grid with unbounded
`max_solutions` explores and undoes every branch, returning the grid unchanged. -/
theorem solve_restores_grid_below_max_witness :
    ∃ p : Grid × List Grid, solve fivesHole ⊤ = some p ∧ p.1 = fivesHole := by
  obtain ⟨p, hp⟩ := Option.isSome_iff_exists.1
    (solveAux_some (countZeros fivesHole + 1) fivesHole ⊤ [] (Nat.lt_succ_self _))
  obtain ⟨g2, sols2⟩ := p
  exact ⟨(g2, sols2), hp,
    solve_restores_grid_below_max fivesHole ⊤ g2 sols2 hp (WithTop.coe_lt_top _)⟩

/-!
### C2: the backtracking undo happens exactly while the count is below the cap
-/

/-- C2: in a recursion frame that has just placed digit `n` in the empty cell
`(y, x)` and got the recursive call's result back, the cell is reset to `0` if and
only if the running count of recorded solutions is still strictly below
`max_solutions`; once the count has reached `max_solutions`, the placement is left
in place and the grid stands frozen at the last recorded solution. -/
theorem undo_iff_below_max (fuel : Nat) (g : Grid) (y x n : Nat) (maxS : ℕ∞)
    (sols sols1 : List Grid) (g1 : Grid) (hw : wellFormed g) (hcons : consistent g)
    (hy : y < 9) (hx : x < 9) (h0 : g y x = 0) (hn1 : 1 ≤ n) (hn9 : n ≤ 9)
    (hp : possible g y x n = true) (hlen : (sols.length : ℕ∞) < maxS)
    (heq : solveAux fuel (setCell g y x n) maxS sols = some (g1, sols1)) :
    ((undoStep y x maxS g1 sols1) y x = 0 ↔ (sols1.length : ℕ∞) < maxS) ∧
      (¬((sols1.length : ℕ∞) < maxS) →
        undoStep y x maxS g1 sols1 = g1 ∧ fullGrid g1 ∧ sols1.getLast? = some g1) := by
  have hpc : consistent (setCell g y x n) :=
    consistent_setCell_of_possible hcons y x n hy hx hp
  have hpw : wellFormed (setCell g y x n) := wellFormed_setCell hw y x n hn9
  constructor
  · constructor
    · intro hcell
      by_contra hnl
      have hu : undoStep y x maxS g1 sols1 = g1 := by rw [undoStep, if_neg hnl]
      rw [hu] at hcell
      have hext1 := (solveAux_inv fuel _ _ _ _ _ heq).2.2.1
      have hval : g1 y x = setCell g y x n y x :=
        hext1 y x hy hx (by rw [setCell_same]; omega)
      rw [setCell_same] at hval
      omega
    · intro hlt
      rw [undoStep, if_pos hlt, setCell_same]
  · intro hnl
    have hu : undoStep y x maxS g1 sols1 = g1 := by rw [undoStep, if_neg hnl]
    have hcross := (solveAux_count fuel _ _ _ _ _ hpc hpw hlen heq).2 hnl
    exact ⟨hu, hcross.1, hcross.2.2.2⟩

/-- Witness for C2: filling the single hole of `gOne` with `max_solutions = 1`
reaches the cap, so the placement is not reset. -/
theorem undo_iff_below_max_witness :
    (undoStep 0 0 1 (setCell gOne 0 0 1) [setCell gOne 0 0 1]) 0 0 ≠ 0 := by
  intro hcell
  have h := (undo_iff_below_max 1 gOne 0 0 1 1 [] [setCell gOne 0 0 1]
    (setCell gOne 0 0 1) (by decide) (by decide) (by decide) (by decide) (by decide)
    (by decide) (by decide) (by decide) (by decide) rfl).1.mp hcell
  exact absurd h (by decide)

/-!
### C1: a solvable well-formed grid yields exactly one solution for `max_solutions = 1`
-/

/-- C1: for every well-formed grid that admits at least one valid completion,
`solve(G, 1)` returns a solution sequence containing exactly one grid, and that
grid passes the completion check. -/
theorem solve_finds_unique_solution (g : Grid) (hw : wellFormed g)
    (hsol : ∃ C, Completes C g) :
    ∃ g2 s, solve g 1 = some (g2, [s]) ∧ check_sudoku s = true := by
  obtain ⟨C, hC⟩ := hsol
  have hcons : consistent g := consistent_of_completes hC
  obtain ⟨p, heq⟩ := Option.isSome_iff_exists.1
    (solveAux_some (countZeros g + 1) g 1 [] (Nat.lt_succ_self _))
  obtain ⟨g2, sols2⟩ := p
  have hlen0 : ((([] : List Grid).length : Nat) : ℕ∞) < 1 := by decide
  have hex := solveAux_ex (countZeros g + 1) g 1 [] g2 sols2 C hC hlen0 heq
  have hcnt := (solveAux_count (countZeros g + 1) g 1 [] g2 sols2 hcons hw hlen0 heq).1
  have hle : sols2.length ≤ 1 := by exact_mod_cast hcnt
  have hlen : sols2.length = 1 := by
    simp only [List.length_nil] at hex
    omega
  obtain ⟨s, rfl⟩ := List.length_eq_one.1 hlen
  have hcontent :=
    (solveAux_content (countZeros g + 1) g 1 [] g2 [s] hcons hw heq).1 s (by simp)
  rcases hcontent with habs | ⟨hfull, hcs, hws, _⟩
  · simp at habs
  · exact ⟨g2, s, heq, check_of_props hws hfull hcs⟩

/-- Witness for C1 at the one-hole grid `gOne`, completed by `CW`. -/
theorem solve_finds_unique_solution_witness :
    ∃ g2 s, solve gOne 1 = some (g2, [s]) ∧ check_sudoku s = true :=
  solve_finds_unique_solution gOne (by decide) ⟨CW, by decide, by decide⟩

/-!
### C6: unsolvable grids

The claim as stated is false: a well-formed grid whose fixed givens already
conflict (hence admits no valid completion) can still lead the search to a full
grid, which is recorded and returned as a "solution".  `gBad` below is such a
grid: its cell `(8,8)` duplicates `(8,7)` in row 8, so no completion exists, yet
`solve(gBad, 1)` returns one (invalid) grid.  The amended claim restricts C6 to
grids whose givens are consistent.
-/

/-- Counterexample to C6 as stated: `gBad` is well-formed, has an empty cell and no
valid completion, yet `solve` returns a non-empty solution sequence. -/
theorem solve_unsolvable_counterexample :
    wellFormed gBad ∧ (∃ r c, r < 9 ∧ c < 9 ∧ gBad r c = 0) ∧
      (∀ C, ¬ Completes C gBad) ∧
      (solve gBad 1).map (fun p => p.2.length) = some 1 := by
  refine ⟨by decide, ⟨0, 0, by decide⟩, ?_, by decide⟩
  intro C hC
  obtain ⟨hchk, hext⟩ := hC
  obtain ⟨_, _, hcC⟩ := props_of_check hchk
  have e1 : C 8 8 = gBad 8 8 := hext 8 8 (by decide) (by decide) (by decide)
  have e2 : C 8 7 = gBad 8 7 := hext 8 7 (by decide) (by decide) (by decide)
  have hne : C 8 7 ≠ C 8 8 :=
    hcC.1 8 7 8 (by decide) (by decide) (by decide) (by decide)
      (by rw [e2]; decide)
  apply hne
  rw [e1, e2]
  decide

/-- C6 (amended): for every well-formed grid whose givens are consistent and which
admits no valid completion, `solve` returns (without any error) an empty solution
sequence, for every `max_solutions` value. -/
theorem solve_unsolvable_returns_empty (g : Grid) (maxS : ℕ∞) (hw : wellFormed g)
    (hcons : consistent g) (hempty : ∃ r c, r < 9 ∧ c < 9 ∧ g r c = 0)
    (hno : ∀ C, ¬ Completes C g) :
    ∃ g2, solve g maxS = some (g2, []) := by
  obtain ⟨p, heq⟩ := Option.isSome_iff_exists.1
    (solveAux_some (countZeros g + 1) g maxS [] (Nat.lt_succ_self _))
  obtain ⟨g2, sols2⟩ := p
  have hcontent := (solveAux_content (countZeros g + 1) g maxS [] g2 sols2
    hcons hw heq).1
  have hnil : sols2 = [] := by
    rw [List.eq_nil_iff_forall_not_mem]
    intro s hs
    rcases hcontent s hs with habs | ⟨hfull, hcs, hws, hexts⟩
    · simp at habs
    · exact hno s ⟨check_of_props hws hfull hcs, hexts⟩
  rw [hnil] at heq
  exact ⟨g2, heq⟩


/-- Witness for the amended C6 at `gStuck`. -/
theorem solve_unsolvable_returns_empty_witness :
    ∃ g2, solve gStuck 1 = some (g2, []) := by
  apply solve_unsolvable_returns_empty gStuck 1 (by decide) (by decide)
    ⟨0, 8, by decide⟩
  intro C hC
  obtain ⟨hchk, hext⟩ := hC
  obtain ⟨rows, _, _⟩ := (check_sudoku_eq_true_iff C).1 hchk
  obtain ⟨hwC, hfC, hcC⟩ := props_of_check hchk
  -- row 0 of C contains the givens 1..8, so C 0 8 must be 9
  have hrow0 := of_toFinset_map_range_eq (rows 0 (by omega))
  have hC08 : C 0 8 = 9 := by
    -- the value 9 appears somewhere in row 0, but cells 0..7 carry 1..8
    have h9mem : 9 ∈ (rowList C 0).toFinset := by
      rw [rows 0 (by omega)]
      exact mem_set_numbers_iff.2 ⟨by omega, le_refl 9⟩
    rw [List.mem_toFinset, rowList] at h9mem
    obtain ⟨c, hcmem, hc9⟩ := List.mem_map.1 h9mem
    have hc9' := List.mem_range.1 hcmem
    by_cases hc8 : c = 8
    · rw [← hc8]; rw [hc9]
    · exfalso
      have hgiven : gStuck 0 c = c + 1 := by
        have hc8' : c < 8 := by omega
        simp [gStuck, hc8']
      have := hext 0 c (by omega) (by omega) (by rw [hgiven]; omega)
      rw [hgiven] at this
      omega
  -- but column 8 of C also contains 9 at row 1
  have hC18 : C 1 8 = 9 := hext 1 8 (by omega) (by omega) (by decide)
  exact hcC.2.1 0 1 8 (by omega) (by omega) (by omega) (by omega)
    (by rw [hC08]; omega) (by rw [hC08, hC18])

/-!
### C3: the well-formedness check and array shapes

The claim is false on the shape side: `valid_sudoku` first filters out every axis
of length 1 (`shape = [value for value in sudoku.shape if value != 1]`), so an
array of shape `(9, 9, 1)` — which is not 9×9 — still passes.
-/


/-- Counterexample to C3 as stated: `nd991` has shape `(9, 9, 1)`, not `(9, 9)`,
with all cell values in range, and `valid_sudoku` still returns `true`. -/
theorem valid_sudoku_shape_counterexample :
    valid_sudoku nd991 = true ∧ nd991.shape ≠ [9, 9] := by decide

/-- C3 (amended): the well-formedness check returns `true` iff the shape with all
length-1 axes removed is exactly `(9, 9)` and every cell value lies in
`{0, ..., 9}`; genuinely 9×9 arrays are accepted exactly when their values are in
range, but so is any array that is 9×9 after squeezing length-1 axes. -/
theorem valid_sudoku_iff (a : NDArray) :
    valid_sudoku a = true ↔
      ((a.shape.filter fun v => v != 1) = [9, 9] ∧ ∀ v ∈ a.data, v ≤ 9) := by
  rw [valid_sudoku, Bool.and_eq_true]
  have hnum : (a.data.all fun v => decide (v ∈ valid_numbers)) = true ↔
      ∀ v ∈ a.data, v ≤ 9 := by
    simp only [List.all_eq_true, decide_eq_true_eq]
    constructor
    · intro h v hv
      have := h v hv
      rw [valid_numbers, List.mem_range] at this
      omega
    · intro h v hv
      rw [valid_numbers, List.mem_range]
      have := h v hv
      omega
  rw [hnum]
  constructor
  · rintro ⟨hdim, hdata⟩
    refine ⟨?_, hdata⟩
    cases hl : a.shape.filter fun v => v != 1 with
    | nil => rw [hl] at hdim; simp at hdim
    | cons s0 l =>
      cases l with
      | nil => rw [hl] at hdim; simp at hdim
      | cons s1 l2 =>
        cases l2 with
        | nil =>
          rw [hl] at hdim
          simp only [Bool.and_eq_true, beq_iff_eq] at hdim
          rw [hdim.1, hdim.2]
        | cons s2 l3 => rw [hl] at hdim; simp at hdim
  · rintro ⟨hshape, hdata⟩
    refine ⟨?_, hdata⟩
    rw [hshape]
    decide

/-!
### C7: clue counts of generated puzzles
-/

theorem countP_mem_range81 (idx : List Nat) (hnd : idx.Nodup)
    (hlt : ∀ i ∈ idx, i < 81) :
    (List.range 81).countP (fun i => decide (i ∈ idx)) = idx.length := by
  rw [List.countP_eq_length_filter]
  have hperm : ((List.range 81).filter fun i => decide (i ∈ idx)).Perm idx := by
    apply List.perm_of_nodup_nodup_toFinset_eq
      (List.Nodup.filter _ (List.nodup_range 81)) hnd
    apply Finset.ext
    intro i
    simp only [List.mem_toFinset, List.mem_filter, List.mem_range, decide_eq_true_eq]
    constructor
    · rintro ⟨_, h⟩; exact h
    · intro h; exact ⟨hlt i h, h⟩
  exact hperm.length_eq

/-- Clearing a set of distinct flat positions of a fully filled grid leaves exactly
`81` minus the number of cleared positions as non-zero clues. -/
theorem nonzeroCount_clearCells (s : Grid) (hfull : fullGrid s) (idx : List Nat)
    (hnd : idx.Nodup) (hlt : ∀ i ∈ idx, i < 81) :
    nonzeroCount (clearCells s idx) = 81 - idx.length := by
  rw [nonzeroCount]
  have hcong : ∀ i ∈ List.range 81,
      ((!(clearCells s idx (i / 9) (i % 9) == 0)) = true) ↔
        ((!(decide (i ∈ idx))) = true) := by
    intro i hi
    have hi81 := List.mem_range.1 hi
    have hr : i / 9 < 9 := by omega
    have hc : i % 9 < 9 := by omega
    have hidx : 9 * (i / 9) + i % 9 = i := by omega
    rw [clearCells]
    by_cases hmem : i ∈ idx
    · rw [if_pos ⟨hr, hc, by rw [hidx]; exact hmem⟩]
      simp [hmem]
    · rw [if_neg (by
        rintro ⟨_, _, hmem2⟩
        rw [hidx] at hmem2
        exact hmem hmem2)]
      simp [hmem, hfull (i / 9) (i % 9) hr hc]
  rw [List.countP_congr hcong]
  have hsum := List.length_eq_countP_add_countP (fun i => decide (i ∈ idx))
    (List.range 81)
  rw [List.length_range] at hsum
  have hmemcount := countP_mem_range81 idx hnd hlt
  have hcong2 : (List.range 81).countP (fun i => !(decide (i ∈ idx))) =
      (List.range 81).countP (fun a => decide (¬(decide (a ∈ idx)) = true)) := by
    apply List.countP_congr
    intro a _
    by_cases hmem : a ∈ idx <;> simp [hmem]
  rw [hcong2]
  omega

theorem wellFormed_of_completes {C g : Grid} (h : Completes C g) : wellFormed g := by
  obtain ⟨hwC, hfC, _⟩ := props_of_check h.1
  intro r c hr hc
  by_cases h0 : g r c = 0
  · omega
  · rw [← h.2 r c hr hc h0]
    exact hwC r c hr hc

theorem generate_sudoku_eq_ok (diag : List Nat) (idxChoice : Nat → List Nat)
    (difficulty : String) (t : Nat) (g2 s : Grid) (rest : List Grid)
    (h1 : difficultyClues difficulty = some t)
    (h2 : solve (diagGrid diag) 1 = some (g2, s :: rest)) :
    generate_sudoku diag idxChoice difficulty =
      Except.ok (clearCells s (idxChoice (9 * 9 - t))) := by
  unfold generate_sudoku
  rw [h1, h2]

theorem generate_sudoku_eq_error (diag : List Nat) (idxChoice : Nat → List Nat)
    (difficulty : String) (h1 : difficultyClues difficulty = none) :
    generate_sudoku diag idxChoice difficulty =
      Except.error "difficulty is invalid try easy, medium or hard" := by
  unfold generate_sudoku
  rw [h1]

theorem map_getD_list_numbers (diag : List Nat) (hlen : diag.length = 9) :
    list_numbers.map (fun v => diag.getD (v - 1) 0) = diag := by
  apply List.ext_getElem
  · simp [list_numbers, valid_numbers, hlen]
  · intro i h1 h2
    have hi : i < 9 := by omega
    simp only [List.getElem_map, list_numbers, valid_numbers, List.getElem_drop,
      List.getElem_range]
    have he : 1 + i - 1 = i := by omega
    rw [he]
    exact List.getD_eq_getElem diag 0 (by omega)

/-- Any diagonal seed that is a permutation of the digits 1..9 admits a valid
completion: relabel the digits of the fixed solved grid `D0`. -/
theorem diag_seed_completes (diag : List Nat) (hperm : diag.Perm list_numbers) :
    Completes (relabel diag) (diagGrid diag) := by
  have hlen : diag.length = 9 := by
    rw [hperm.length_eq]
    rfl
  have hmapdiag : list_numbers.map (fun v => diag.getD (v - 1) 0) = diag :=
    map_getD_list_numbers diag hlen
  have hmapperm : ∀ l : List Nat, l.Perm list_numbers →
      (l.map fun v => diag.getD (v - 1) 0).Perm list_numbers := by
    intro l hl
    have h1 := hl.map fun v => diag.getD (v - 1) 0
    rw [hmapdiag] at h1
    exact h1.trans hperm
  constructor
  · apply (check_sudoku_eq_true_iff _).2
    have hrowsD0 : ∀ r, r < 9 → (rowList D0 r).Perm list_numbers := by decide
    have hcolsD0 : ∀ c, c < 9 → (colList D0 c).Perm list_numbers := by decide
    have hboxesD0 : ∀ a, a ∈ ([0, 3, 6] : List Nat) → ∀ b, b ∈ ([0, 3, 6] : List Nat) →
        (boxList D0 a b).Perm list_numbers := by decide
    refine ⟨?_, ?_, ?_⟩
    · intro r hr
      have he : rowList (relabel diag) r =
          (rowList D0 r).map fun v => diag.getD (v - 1) 0 := by
        rw [rowList, rowList, List.map_map]
        rfl
      rw [he]
      exact (toFinset_eq_iff_perm (by simp [rowList])).2 (hmapperm _ (hrowsD0 r hr))
    · intro c hc
      have he : colList (relabel diag) c =
          (colList D0 c).map fun v => diag.getD (v - 1) 0 := by
        rw [colList, colList, List.map_map]
        rfl
      rw [he]
      exact (toFinset_eq_iff_perm (by simp [colList])).2 (hmapperm _ (hcolsD0 c hc))
    · intro a ha b hb
      have he : boxList (relabel diag) a b =
          (boxList D0 a b).map fun v => diag.getD (v - 1) 0 := by
        rw [boxList, boxList, List.map_map]
        rfl
      rw [he]
      exact (toFinset_eq_iff_perm (by simp [boxList])).2 (hmapperm _ (hboxesD0 a ha b hb))
  · intro r c hr hc hnz
    have hdiagD0 : ∀ r, r < 9 → D0 r r = r + 1 := by decide
    rw [diagGrid] at hnz ⊢
    by_cases hcond : r < 9 ∧ c < 9 ∧ r = c
    · rw [if_pos hcond] at hnz ⊢
      obtain ⟨_, _, rfl⟩ := hcond
      rw [relabel, hdiagD0 r hr]
      simp
    · rw [if_neg hcond] at hnz
      exact absurd rfl hnz

/-- C7: for each recognized difficulty label, `generate_sudoku` produces a grid
whose number of non-zero cells is exactly the difficulty's clue target (`easy → 30`,
`medium → 24`, `hard → 17`), provided the diagonal seed is completable and the
random index sample is a faithful draw without replacement from the 81 positions;
any other label yields the invalid-difficulty error and no grid. -/
theorem generate_sudoku_clue_counts :
    (∀ (diag : List Nat) (idxChoice : Nat → List Nat) (difficulty : String) (t : Nat),
      ((difficulty = "easy" ∧ t = 30) ∨ (difficulty = "medium" ∧ t = 24) ∨
        (difficulty = "hard" ∧ t = 17)) →
      diag.Perm list_numbers →
      (idxChoice (9 * 9 - t)).Nodup →
      (idxChoice (9 * 9 - t)).length = 9 * 9 - t →
      (∀ i ∈ idxChoice (9 * 9 - t), i < 81) →
      ∃ res, generate_sudoku diag idxChoice difficulty = Except.ok res ∧
        nonzeroCount res = t) ∧
    (∀ (diag : List Nat) (idxChoice : Nat → List Nat) (difficulty : String),
      difficulty ≠ "easy" → difficulty ≠ "medium" → difficulty ≠ "hard" →
      ∃ e, generate_sudoku diag idxChoice difficulty = Except.error e) := by
  constructor
  · intro diag idxChoice difficulty t hdiff hperm hnd hlen hbound
    have hclue : difficultyClues difficulty = some t := by
      rcases hdiff with ⟨rfl, rfl⟩ | ⟨rfl, rfl⟩ | ⟨rfl, rfl⟩ <;> decide
    have hC := diag_seed_completes diag hperm
    have hw := wellFormed_of_completes hC
    have hcons := consistent_of_completes hC
    obtain ⟨p, heq⟩ := Option.isSome_iff_exists.1
      (solveAux_some (countZeros (diagGrid diag) + 1) (diagGrid diag) 1 []
        (Nat.lt_succ_self _))
    obtain ⟨g2, sols2⟩ := p
    have hlen0 : ((([] : List Grid).length : Nat) : ℕ∞) < 1 := by decide
    have hex := solveAux_ex (countZeros (diagGrid diag) + 1) (diagGrid diag) 1 []
      g2 sols2 (relabel diag) hC hlen0 heq
    cases sols2 with
    | nil => simp at hex
    | cons s rest =>
      have hok := generate_sudoku_eq_ok diag idxChoice difficulty t g2 s rest hclue heq
      have hcontent := (solveAux_content (countZeros (diagGrid diag) + 1)
        (diagGrid diag) 1 [] g2 (s :: rest) hcons hw heq).1 s (by simp)
      rcases hcontent with habs | ⟨hfull, _, _, _⟩
      · simp at habs
      · refine ⟨_, hok, ?_⟩
        rw [nonzeroCount_clearCells s hfull _ hnd hbound, hlen]
        rcases hdiff with ⟨_, rfl⟩ | ⟨_, rfl⟩ | ⟨_, rfl⟩ <;> norm_num
  · intro diag idxChoice difficulty h1 h2 h3
    refine ⟨_, generate_sudoku_eq_error diag idxChoice difficulty ?_⟩
    simp [difficultyClues, h1, h2, h3]

/-- Witness for C7: the identity seed `1..9` is a valid shuffled diagonal; clearing
the first 64 flat positions leaves a hard puzzle with exactly 17 clues, and an
unknown label produces the invalid-difficulty error. -/
theorem generate_sudoku_clue_counts_witness :
    (∃ res, generate_sudoku list_numbers (fun k => List.range k) "hard" =
        Except.ok res ∧ nonzeroCount res = 17) ∧
    (∃ e, generate_sudoku list_numbers (fun k => List.range k) "bogus" =
        Except.error e) := by
  constructor
  · exact generate_sudoku_clue_counts.1 list_numbers (fun k => List.range k) "hard" 17
      (Or.inr (Or.inr ⟨rfl, rfl⟩)) (List.Perm.refl list_numbers)
      (List.nodup_range _) (List.length_range _)
      (fun i hi => by
        have := List.mem_range.1 hi
        omega)
  · exact generate_sudoku_clue_counts.2 list_numbers (fun k => List.range k) "bogus"
      (by decide) (by decide) (by decide)

end SudokuSpec
